import Mathlib

/-!
Shallow embedding of the quant trading engine core (Rust sources under
`src/`): value types, the risk manager, Kelly-criterion sizing, the
integrated position sizer, the order/position manager, the backtest trade
record and the backtest replay engine, together with theorems about the
specified properties.

Modelling conventions:
* `f64` money/price/percentage values are modelled as `ℚ` (the code only
  ever performs field arithmetic, `abs`, `floor` and comparisons on them);
* `u64`/`i64`/`usize` counters are modelled as `Nat`/`Int`, with the
  two's-complement wrap of `as i64` casts made explicit where it occurs;
* Rust `HashMap`s are modelled as association lists (`List (key × value)`),
  with lookup/insert/remove mirroring `HashMap` semantics; iteration order,
  unspecified for a Rust `HashMap`, is the list order;
* violation payloads that the Rust code renders with `format!` into strings
  carry the underlying numeric values instead;
* wall-clock timestamps (`Utc::now()`, `SystemTime`) and random order ids
  (`uuid`) are not part of the embedding: no claim concerns them.
-/

namespace Quant

/-- Symbols (`src/types/mod.rs`) are validated uppercase alphanumeric
strings; the claims below only use them as map keys, so the embedding
uses plain strings. -/
abbrev Symbol := String

/-- Two's-complement reinterpretation of a `u64` value as an `i64`,
making the Rust `value as i64` cast explicit. -/
def toI64 (v : Nat) : Int :=
  let r : Int := (v : Int) % (2 ^ 64)
  if r < 2 ^ 63 then r else r - 2 ^ 64

/-- `Quantity` (`src/types/price.rs`): signed share count wrapped in a
newtype. -/
structure Quantity where
  val : Int
deriving Repr, DecidableEq

/-- `Quantity::new` (`src/types/price.rs`): fails (with
`ValidationError::InvalidQuantity`) when the value is zero. -/
def Quantity.new (value : Int) : Option Quantity :=
  if value = 0 then none else some ⟨value⟩

/-- `Quantity::buy` (`src/types/price.rs`): `Quantity(value as i64)` with no
validation. -/
def Quantity.buy (value : Nat) : Quantity :=
  ⟨toI64 value⟩

/-- `Quantity::sell` (`src/types/price.rs`): `Quantity(-(value as i64))`
with no validation. -/
def Quantity.sell (value : Nat) : Quantity :=
  ⟨-(toI64 value)⟩

/-- Modelled from the spec: `SignalAction` lives in `src/types/signal.rs`,
which is declared in `src/types/mod.rs` but absent from the source tree.
The spec gives `action ∈ \x7bBuy, Sell, Close, Hold\x7d`. -/
inductive SignalAction where
  | buy
  | sell
  | close
  | hold
deriving Repr, DecidableEq

/-- Modelled from the spec: `Signal` lives in the absent
`src/types/signal.rs`. The spec gives its fields as symbol, action,
confidence, reason (text), source (alpha name), optional target price,
optional stop-loss price, optional take-profit price, optional explicit
quantity. Confidence is a bounded real in `[0, 1]`; its numeric value is
all the present code uses, so it is carried as `ℚ`. -/
structure Signal where
  symbol : Symbol
  action : SignalAction
  confidence : ℚ
  reason : String
  source : String
  targetPrice : Option ℚ
  stopLoss : Option ℚ
  takeProfit : Option ℚ
  quantity : Option Int
deriving Repr, DecidableEq

/-! ### Association-list model of `HashMap` -/

/-- `HashMap::get`: value of the first entry with the given key. -/
def alLookup {κ α : Type} [DecidableEq κ] (k : κ) : List (κ × α) → Option α
  | [] => none
  | (a, v) :: rest => if a = k then some v else alLookup k rest

/-- `HashMap::contains_key`. -/
def alContains {κ α : Type} [DecidableEq κ] (k : κ) (l : List (κ × α)) :
    Bool :=
  (alLookup k l).isSome

/-- `HashMap::insert`: replace the value at an existing key, otherwise
append a new entry. -/
def alInsert {κ α : Type} [DecidableEq κ] (k : κ) (v : α)
    (l : List (κ × α)) : List (κ × α) :=
  if alContains k l then
    l.map (fun p => if p.1 = k then (k, v) else p)
  else
    l ++ [(k, v)]

/-- `HashMap::remove`: drop every entry with the given key (on a map whose
keys are distinct this is the removal of the single entry). -/
def alErase {κ α : Type} [DecidableEq κ] (k : κ) (l : List (κ × α)) :
    List (κ × α) :=
  l.filter (fun p => p.1 ≠ k)

/-- The keys of an association list. -/
def alKeys {κ α : Type} (l : List (κ × α)) : List κ :=
  l.map Prod.fst

/-- The `HashMap` representation invariant: no two entries share a key. -/
def NodupKeys {κ α : Type} (l : List (κ × α)) : Prop :=
  (alKeys l).Nodup

/-! ### Risk manager (`src/core/risk_manager.rs`) -/

/-- `RiskManagerConfig` (`src/core/risk_manager.rs`). -/
structure RiskManagerConfig where
  maxRiskPerTradePct : ℚ
  maxDailyDrawdownPct : ℚ
  maxCorrelationExposurePct : ℚ
  maxConsecutiveLosses : Nat
  emergencyStopValue : ℚ
deriving Repr, DecidableEq

/-- `RiskManagerConfig::default`. -/
def RiskManagerConfig.default : RiskManagerConfig :=
  ⟨1/2, 5, 50, 3, 5000⟩

/-- `RiskViolation` (`src/core/risk_manager.rs`). The Rust variants carry
`format!`-rendered strings of the numbers below; the embedding carries the
numbers themselves. -/
inductive RiskViolation where
  | excessiveRisk (riskPct maxAllowed : ℚ)
  | maxDrawdownReached (currentDd maxAllowed : ℚ)
  | consecutiveLosses (count maxAllowed : Nat)
  | correlationExposure (exposurePct maxAllowed : ℚ)
  | emergencyStop (value threshold : ℚ)
  | maxPositionsReached (current maxAllowed : Nat)
  | insufficientCapital (required available : ℚ)
deriving Repr, DecidableEq

/-- `RiskCheckResult` (`src/core/risk_manager.rs`). -/
inductive RiskCheckResult where
  | approved
  | rejected (violation : RiskViolation)
deriving Repr, DecidableEq

/-- `RiskManager` (`src/core/risk_manager.rs`): mutable state of the
per-portfolio gate. -/
structure RiskManager where
  config : RiskManagerConfig
  dayStartValue : ℚ
  currentValue : ℚ
  consecutiveLosses : Nat
  correlationGroups : List (String × List Symbol)
deriving Repr, DecidableEq

/-- The correlation groups installed by `RiskManager::new`. -/
def defaultCorrelationGroups : List (String × List Symbol) :=
  [("tech_etf", ["QQQ", "XLK"]),
   ("broad_market", ["SPY", "IWM", "DIA"])]

/-- `RiskManager::new`. -/
def RiskManager.new (config : RiskManagerConfig) (initialValue : ℚ) :
    RiskManager :=
  ⟨config, initialValue, initialValue, 0, defaultCorrelationGroups⟩

/-- `RiskManager::update_portfolio_value`. -/
def RiskManager.updatePortfolioValue (rm : RiskManager) (value : ℚ) :
    RiskManager :=
  { rm with currentValue := value }

/-- `RiskManager::reset_daily`. -/
def RiskManager.resetDaily (rm : RiskManager) : RiskManager :=
  { rm with dayStartValue := rm.currentValue, consecutiveLosses := 0 }

/-- `RiskManager::record_trade`: a strictly negative P&L increments the
consecutive-loss counter, any other P&L resets it to zero. -/
def RiskManager.recordTrade (rm : RiskManager) (pnl : ℚ) : RiskManager :=
  if pnl < 0 then
    { rm with consecutiveLosses := rm.consecutiveLosses + 1 }
  else
    { rm with consecutiveLosses := 0 }

/-- Total exposure of a correlation group: the candidate position's value
plus the open-position values of every symbol in the group (the loop body
of `RiskManager::check_correlation_exposure`). -/
def groupExposure (newPositionValue : ℚ) (openPositions : List (Symbol × ℚ))
    (symbols : List Symbol) : ℚ :=
  symbols.foldl
    (fun acc s =>
      match alLookup s openPositions with
      | some v => acc + v
      | none => acc)
    newPositionValue

/-- `RiskManager::check_correlation_exposure`: the first correlation group
that contains the symbol and whose exposure percentage exceeds the limit
yields a violation. -/
def RiskManager.checkCorrelationExposure (rm : RiskManager)
    (newSymbol : Symbol) (newPositionValue : ℚ)
    (openPositions : List (Symbol × ℚ)) : Option RiskViolation :=
  rm.correlationGroups.findSome? fun g =>
    if newSymbol ∈ g.2 then
      let exposure := groupExposure newPositionValue openPositions g.2
      let exposurePct := exposure / rm.currentValue * 100
      if exposurePct > rm.config.maxCorrelationExposurePct then
        some (.correlationExposure exposurePct
          rm.config.maxCorrelationExposurePct)
      else none
    else none

/-- `RiskManager::check_trade`: the seven sequential checks. -/
def RiskManager.checkTrade (rm : RiskManager) (symbol : Symbol)
    (positionValue riskAmount : ℚ) (openPositions : List (Symbol × ℚ))
    (maxPositions : Nat) (cash : ℚ) : RiskCheckResult :=
  -- Check 1: Emergency stop
  if rm.currentValue ≤ rm.config.emergencyStopValue then
    .rejected (.emergencyStop rm.currentValue rm.config.emergencyStopValue)
  else
  -- Check 2: Daily drawdown
  let dailyDdPct := (rm.dayStartValue - rm.currentValue) / rm.dayStartValue
    * 100
  if dailyDdPct ≥ rm.config.maxDailyDrawdownPct then
    .rejected (.maxDrawdownReached dailyDdPct rm.config.maxDailyDrawdownPct)
  else
  -- Check 3: Consecutive losses
  if rm.consecutiveLosses ≥ rm.config.maxConsecutiveLosses then
    .rejected (.consecutiveLosses rm.consecutiveLosses
      rm.config.maxConsecutiveLosses)
  else
  -- Check 4: Risk per trade
  let riskPct := riskAmount / rm.currentValue * 100
  if riskPct > rm.config.maxRiskPerTradePct then
    .rejected (.excessiveRisk riskPct rm.config.maxRiskPerTradePct)
  else
  -- Check 5: Max positions
  if openPositions.length ≥ maxPositions then
    .rejected (.maxPositionsReached openPositions.length maxPositions)
  else
  -- Check 6: Sufficient capital
  if cash < positionValue then
    .rejected (.insufficientCapital positionValue cash)
  else
  -- Check 7: Correlation exposure
  match rm.checkCorrelationExposure symbol positionValue openPositions with
  | some violation => .rejected violation
  | none => .approved

/-- The seven checks of `check_trade`, written independently of one another
and in the fixed priority order of the source: entry `k` is `some v`
exactly when check `k + 1` fails, `v` being the violation that check
reports. -/
def RiskManager.checkViolations (rm : RiskManager) (symbol : Symbol)
    (positionValue riskAmount : ℚ) (openPositions : List (Symbol × ℚ))
    (maxPositions : Nat) (cash : ℚ) : List (Option RiskViolation) :=
  [ if rm.currentValue ≤ rm.config.emergencyStopValue then
      some (.emergencyStop rm.currentValue rm.config.emergencyStopValue)
    else none,
    if (rm.dayStartValue - rm.currentValue) / rm.dayStartValue * 100
        ≥ rm.config.maxDailyDrawdownPct then
      some (.maxDrawdownReached
        ((rm.dayStartValue - rm.currentValue) / rm.dayStartValue * 100)
        rm.config.maxDailyDrawdownPct)
    else none,
    if rm.consecutiveLosses ≥ rm.config.maxConsecutiveLosses then
      some (.consecutiveLosses rm.consecutiveLosses
        rm.config.maxConsecutiveLosses)
    else none,
    if riskAmount / rm.currentValue * 100 > rm.config.maxRiskPerTradePct then
      some (.excessiveRisk (riskAmount / rm.currentValue * 100)
        rm.config.maxRiskPerTradePct)
    else none,
    if openPositions.length ≥ maxPositions then
      some (.maxPositionsReached openPositions.length maxPositions)
    else none,
    if cash < positionValue then
      some (.insufficientCapital positionValue cash)
    else none,
    rm.checkCorrelationExposure symbol positionValue openPositions ]

/-! ### Kelly criterion (`src/core/kelly_criterion.rs`) -/

/-- `KellyConfig` (`src/core/kelly_criterion.rs`). -/
structure KellyConfig where
  kellyFraction : ℚ
  minWinRate : ℚ
  maxPositionPct : ℚ
  minPositionPct : ℚ
  minTradesForKelly : Nat
  defaultPositionPct : ℚ
deriving Repr, DecidableEq

/-- `KellyConfig::default`. -/
def KellyConfig.default : KellyConfig :=
  ⟨1/2, 2/5, 10, 1/2, 20, 2⟩

/-- `TradingStats` (`src/core/kelly_criterion.rs`). -/
structure TradingStats where
  totalTrades : Nat
  wins : Nat
  losses : Nat
  totalWinAmount : ℚ
  totalLossAmount : ℚ
deriving Repr, DecidableEq

/-- `TradingStats::new` / `Default`. -/
def TradingStats.new : TradingStats :=
  ⟨0, 0, 0, 0, 0⟩

/-- `TradingStats::record_trade`: wins and losses are counted strictly;
breakeven trades only increment the total. -/
def TradingStats.recordTrade (s : TradingStats) (pnl : ℚ) : TradingStats :=
  let s := { s with totalTrades := s.totalTrades + 1 }
  if pnl > 0 then
    { s with wins := s.wins + 1, totalWinAmount := s.totalWinAmount + pnl }
  else if pnl < 0 then
    { s with losses := s.losses + 1,
             totalLossAmount := s.totalLossAmount + |pnl| }
  else
    s

/-- `TradingStats::win_rate`. -/
def TradingStats.winRate (s : TradingStats) : Option ℚ :=
  if s.totalTrades = 0 then none
  else some ((s.wins : ℚ) / (s.totalTrades : ℚ))

/-- `TradingStats::avg_win`. -/
def TradingStats.avgWin (s : TradingStats) : Option ℚ :=
  if s.wins = 0 then none
  else some (s.totalWinAmount / (s.wins : ℚ))

/-- `TradingStats::avg_loss`. -/
def TradingStats.avgLoss (s : TradingStats) : Option ℚ :=
  if s.losses = 0 then none
  else some (s.totalLossAmount / (s.losses : ℚ))

/-- `TradingStats::win_loss_ratio`. -/
def TradingStats.winLossRatio (s : TradingStats) : Option ℚ := do
  let avgWin ← s.avgWin
  let avgLoss ← s.avgLoss
  if avgLoss = 0 then none
  else some (avgWin / avgLoss)

/-- `TradingStats::has_sufficient_data`. -/
def TradingStats.hasSufficientData (s : TradingStats) (minTrades : Nat) :
    Prop :=
  s.totalTrades ≥ minTrades ∧ s.wins > 0 ∧ s.losses > 0

instance (s : TradingStats) (minTrades : Nat) :
    Decidable (s.hasSufficientData minTrades) := by
  unfold TradingStats.hasSufficientData
  infer_instance

/-- `KellyCriterion` (`src/core/kelly_criterion.rs`). -/
structure KellyCriterion where
  config : KellyConfig
  stats : TradingStats
deriving Repr, DecidableEq

/-- `KellyCriterion::with_config`. -/
def KellyCriterion.withConfig (config : KellyConfig) : KellyCriterion :=
  ⟨config, TradingStats.new⟩

/-- `KellyCriterion::record_trade`. -/
def KellyCriterion.recordTrade (k : KellyCriterion) (pnl : ℚ) :
    KellyCriterion :=
  { k with stats := k.stats.recordTrade pnl }

/-- `KellyCriterion::kelly_pct`. -/
def KellyCriterion.kellyPct (k : KellyCriterion) : Option ℚ := do
  if ¬ k.stats.hasSufficientData k.config.minTradesForKelly then none
  else do
    let winRate ← k.stats.winRate
    let lossRate := 1 - winRate
    let winLossRatio ← k.stats.winLossRatio
    if winRate < k.config.minWinRate then none
    else
      let kellyRaw := (winRate * winLossRatio - lossRate) / winLossRatio
      let kellyAdjusted := kellyRaw * k.config.kellyFraction
      if kellyAdjusted ≤ 0 then none
      else some (kellyAdjusted * 100)

/-- `KellyCriterion::position_size`. -/
def KellyCriterion.positionSize (k : KellyCriterion) (portfolioValue : ℚ)
    (signalConfidence : Option ℚ) : ℚ :=
  let basePct := (k.kellyPct).getD k.config.defaultPositionPct
  let adjustedPct :=
    match signalConfidence with
    | some conf => basePct * conf
    | none => basePct
  let cappedPct := min (max adjustedPct k.config.minPositionPct)
    k.config.maxPositionPct
  cappedPct / 100 * portfolioValue

/-- `KellyCriterion::calculate_quantity` (the saturating `as u64` cast of a
non-negative float is `Int.toNat` of the floor). -/
def KellyCriterion.calculateQuantity (k : KellyCriterion)
    (portfolioValue currentPrice : ℚ) (signalConfidence : Option ℚ) : Nat :=
  let positionValue := k.positionSize portfolioValue signalConfidence
  let shares := positionValue / currentPrice
  ⌊shares⌋.toNat

/-- `SizingMethod` (`src/core/kelly_criterion.rs`). -/
inductive SizingMethod where
  | kelly
  | fixed
deriving Repr, DecidableEq

/-- `PositionSummary` (`src/core/kelly_criterion.rs`). -/
structure PositionSummary where
  quantity : Nat
  positionValue : ℚ
  positionPct : ℚ
  sizingMethod : SizingMethod
  kellyPct : Option ℚ
  tradesCompleted : Nat
  winRate : Option ℚ
deriving Repr, DecidableEq

/-- `KellyCriterion::position_summary`. -/
def KellyCriterion.positionSummary (k : KellyCriterion)
    (portfolioValue currentPrice : ℚ) (signalConfidence : Option ℚ) :
    PositionSummary :=
  let positionValue := k.positionSize portfolioValue signalConfidence
  let quantity := k.calculateQuantity portfolioValue currentPrice
    signalConfidence
  let positionPct := positionValue / portfolioValue * 100
  let sizingMethod :=
    if (k.kellyPct).isSome then SizingMethod.kelly else SizingMethod.fixed
  ⟨quantity, positionValue, positionPct, sizingMethod, k.kellyPct,
    k.stats.totalTrades, k.stats.winRate⟩

/-! ### Integrated position sizer (`src/core/position_sizer.rs`) -/

/-- `ApprovalStatus` (`src/core/position_sizer.rs`). -/
inductive ApprovalStatus where
  | approved
  | reduced
  | rejected
deriving Repr, DecidableEq

/-- `PositionSizeDecision` (`src/core/position_sizer.rs`); the
`rejection_reason` string is carried as the violation itself. -/
structure PositionSizeDecision where
  symbol : Symbol
  quantity : Nat
  positionValue : ℚ
  positionPct : ℚ
  riskAmount : ℚ
  riskPct : ℚ
  sizingMethod : SizingMethod
  kellyPct : Option ℚ
  approvalStatus : ApprovalStatus
  rejectionReason : Option RiskViolation
deriving Repr, DecidableEq

/-- `IntegratedPositionSizer` (`src/core/position_sizer.rs`). -/
structure IntegratedPositionSizer where
  kelly : KellyCriterion
  riskManager : RiskManager
  portfolioValue : ℚ
deriving Repr, DecidableEq

/-- `IntegratedPositionSizer::new`. -/
def IntegratedPositionSizer.new (kellyConfig : KellyConfig)
    (riskConfig : RiskManagerConfig) (initialPortfolio : ℚ) :
    IntegratedPositionSizer :=
  ⟨KellyCriterion.withConfig kellyConfig,
    RiskManager.new riskConfig initialPortfolio, initialPortfolio⟩

/-- `IntegratedPositionSizer::record_trade`. -/
def IntegratedPositionSizer.recordTrade (s : IntegratedPositionSizer)
    (pnl : ℚ) : IntegratedPositionSizer :=
  { s with kelly := s.kelly.recordTrade pnl,
           riskManager := s.riskManager.recordTrade pnl }

/-- The reduced share count computed inside `calculate_position` when the
risk manager rejects the Kelly size for excessive risk: it fits the
maximum risk amount through the stop-loss distance, or through an assumed
2% stop when the signal has none. -/
def IntegratedPositionSizer.adjustedQuantity (s : IntegratedPositionSizer)
    (signal : Signal) (currentPrice : ℚ) : Nat :=
  let maxRiskPct := s.riskManager.config.maxRiskPerTradePct
  let maxRiskAmount := maxRiskPct / 100 * s.portfolioValue
  match signal.stopLoss with
  | some stopLoss =>
    let riskPerShare := |currentPrice - stopLoss|
    if riskPerShare > 0 then ⌊maxRiskAmount / riskPerShare⌋.toNat else 0
  | none =>
    let adjustedValue := maxRiskAmount / (2/100)
    ⌊adjustedValue / currentPrice⌋.toNat

/-- `IntegratedPositionSizer::calculate_position`. -/
def IntegratedPositionSizer.calculatePosition (s : IntegratedPositionSizer)
    (signal : Signal) (currentPrice : ℚ)
    (openPositions : List (Symbol × ℚ)) (maxPositions : Nat) (cash : ℚ) :
    Except RiskViolation PositionSizeDecision :=
  -- Step 1: Kelly-optimal position size
  let kellySummary := s.kelly.positionSummary s.portfolioValue currentPrice
    (some signal.confidence)
  let kellyPositionValue := kellySummary.positionValue
  let kellyQuantity := kellySummary.quantity
  -- Step 2: risk amount for the stop loss
  let riskAmount :=
    match signal.stopLoss with
    | some stopLoss => |currentPrice - stopLoss| * (kellyQuantity : ℚ)
    | none => kellyPositionValue * (2/100)
  -- Step 3: risk manager validation
  let riskCheck := s.riskManager.checkTrade signal.symbol kellyPositionValue
    riskAmount openPositions maxPositions cash
  match riskCheck with
  | .approved =>
    .ok ⟨signal.symbol, kellyQuantity, kellyPositionValue,
      kellyPositionValue / s.portfolioValue * 100, riskAmount,
      riskAmount / s.portfolioValue * 100, kellySummary.sizingMethod,
      kellySummary.kellyPct, .approved, none⟩
  | .rejected violation =>
    match violation with
    | .excessiveRisk _ _ =>
      let maxRiskPct := s.riskManager.config.maxRiskPerTradePct
      let maxRiskAmount := maxRiskPct / 100 * s.portfolioValue
      let adjusted := s.adjustedQuantity signal currentPrice
      if adjusted > 0 then
        let adjustedValue := (adjusted : ℚ) * currentPrice
        .ok ⟨signal.symbol, adjusted, adjustedValue,
          adjustedValue / s.portfolioValue * 100, maxRiskAmount, maxRiskPct,
          .fixed, kellySummary.kellyPct, .reduced, some violation⟩
      else
        .error violation
    | _ => .error violation

/-! ### Signal aggregator (`src/core/signal_aggregator.rs`) -/

/-- `AggregationStrategy` (`src/core/signal_aggregator.rs`). -/
inductive AggregationStrategy where
  | highestConfidence
  | weightedAverage
  | unanimous
  | majorityVote
deriving Repr, DecidableEq

/-- `SignalAggregator` (`src/core/signal_aggregator.rs`). -/
structure SignalAggregator where
  strategy : AggregationStrategy
  minConfidence : ℚ
deriving Repr, DecidableEq

/-- `SignalAggregator::new`: default minimum confidence 0.5. -/
def SignalAggregator.new (strategy : AggregationStrategy) :
    SignalAggregator :=
  ⟨strategy, 1/2⟩

/-- Insert a signal into a list already sorted by descending confidence,
after every signal of strictly higher confidence and before signals of
equal confidence that came later in the input. -/
def insertByConfidence (s : Signal) : List Signal → List Signal
  | [] => [s]
  | t :: rest =>
    if t.confidence > s.confidence then t :: insertByConfidence s rest
    else s :: t :: rest

/-- Stable sort by descending confidence, modelling the stable
`sort_by(partial_cmp)` in `SignalAggregator::highest_confidence`. -/
def sortByConfidenceDesc : List Signal → List Signal
  | [] => []
  | s :: rest => insertByConfidence s (sortByConfidenceDesc rest)

/-- `SignalAggregator::highest_confidence`. -/
def SignalAggregator.highestConfidence (agg : SignalAggregator)
    (signals : List Signal) : Option Signal :=
  (sortByConfidenceDesc signals).find?
    (fun s => s.confidence ≥ agg.minConfidence)

/-- Group a signal list into an association list keyed by the given
function, keys in first-seen order and each group in input order
(the `entry(..).or_insert_with(Vec::new).push(..)` pattern). -/
def groupSignalsBy {κ : Type} [DecidableEq κ] (key : Signal → κ)
    (signals : List Signal) : List (κ × List Signal) :=
  signals.foldl
    (fun acc s =>
      match alLookup (key s) acc with
      | some group => alInsert (key s) (group ++ [s]) acc
      | none => acc ++ [(key s, [s])])
    []

/-- Average confidence of a group of signals. -/
def avgConfidence (signals : List Signal) : ℚ :=
  (signals.map (fun s => s.confidence)).sum / (signals.length : ℚ)

/-- `SignalAggregator::weighted_average`. The synthesized reason string is
modelled by a fixed tag; no embedded code reads it. -/
def SignalAggregator.weightedAverage (agg : SignalAggregator)
    (signals : List Signal) : Option Signal :=
  let byAction := groupSignalsBy (fun s => s.action) signals
  let best := byAction.foldl
    (fun (best : Option (SignalAction × ℚ × List Signal)) g =>
      let avg := avgConfidence g.2
      if avg ≥ agg.minConfidence then
        match best with
        | none => some (g.1, avg, g.2)
        | some b => if avg > b.2.1 then some (g.1, avg, g.2) else best
      else best)
    none
  best.map fun b =>
    match b.2.2 with
    | base :: _ =>
      { base with confidence := b.2.1,
                  reason := "Aggregated from alphas" }
    | [] => ⟨"", b.1, b.2.1, "Aggregated from alphas", "", none, none,
        none, none⟩

/-- `SignalAggregator::unanimous`. -/
def SignalAggregator.unanimous (agg : SignalAggregator)
    (signals : List Signal) : Option Signal :=
  match signals with
  | [] => none
  | first :: _ =>
    let allAgree := signals.all (fun s => s.action = first.action)
    if ¬ allAgree then none
    else
      let avg := avgConfidence signals
      if avg < agg.minConfidence then none
      else
        some { first with confidence := avg,
                          reason := "Unanimous agreement from alphas" }

/-- `SignalAggregator::majority_vote` (`max_by_key` keeps the last maximum
in iteration order). -/
def SignalAggregator.majorityVote (agg : SignalAggregator)
    (signals : List Signal) : Option Signal :=
  let votes := groupSignalsBy (fun s => s.action) signals
  let majority := votes.foldl
    (fun (best : Option (SignalAction × List Signal)) g =>
      match best with
      | none => some g
      | some b => if g.2.length ≥ b.2.length then some g else best)
    none
  majority.bind fun m =>
    let avg := avgConfidence m.2
    if avg < agg.minConfidence then none
    else
      match m.2 with
      | base :: _ =>
        some { base with confidence := avg,
                         reason := "Majority vote of alphas" }
      | [] => none

/-- `SignalAggregator::aggregate_symbol_signals`. -/
def SignalAggregator.aggregateSymbolSignals (agg : SignalAggregator)
    (signals : List Signal) : Option Signal :=
  if signals.isEmpty then none
  else
    match agg.strategy with
    | .highestConfidence => agg.highestConfidence signals
    | .weightedAverage => agg.weightedAverage signals
    | .unanimous => agg.unanimous signals
    | .majorityVote => agg.majorityVote signals

/-- `SignalAggregator::aggregate`. -/
def SignalAggregator.aggregate (agg : SignalAggregator)
    (signals : List Signal) : List Signal :=
  (groupSignalsBy (fun s => s.symbol) signals).filterMap
    (fun g => agg.aggregateSymbolSignals g.2)

/-! ### Market data (`src/types/market_data.rs`) -/

/-- `MarketData` (`src/types/market_data.rs`), restricted to the fields
the embedded code reads: the bid/ask of the `Quote` and the last traded
price (volume, OHLC, sentiment fields and timestamps are never consulted
by the embedded functions). -/
structure MarketData where
  bid : ℚ
  ask : ℚ
  lastPrice : ℚ
deriving Repr, DecidableEq

/-- `Quote::mid`. -/
def MarketData.mid (d : MarketData) : ℚ :=
  (d.bid + d.ask) / 2

/-- `MarketSnapshot` (`src/types/market_data.rs`): symbol-indexed market
data. -/
abbrev MarketSnapshot := List (Symbol × MarketData)

/-! ### Order manager (`src/core/order_manager.rs`) -/

/-- `OrderStatus` (`src/core/order_manager.rs`). -/
inductive OrderStatus where
  | pending
  | filled
  | cancelled
  | rejected
deriving Repr, DecidableEq

/-- `OrderSide` (`src/core/order_manager.rs`). -/
inductive OrderSide where
  | buy
  | sell
deriving Repr, DecidableEq

/-- `OrderType` (`src/core/order_manager.rs`). -/
inductive OrderType where
  | market
  | limit
  | stopLoss
  | takeProfit
deriving Repr, DecidableEq

/-- `Order` (`src/core/order_manager.rs`), without the random uuid and the
wall-clock timestamps. -/
structure Order where
  symbol : Symbol
  side : OrderSide
  orderType : OrderType
  quantity : Quantity
  price : Option ℚ
  status : OrderStatus
  filledPrice : Option ℚ
deriving Repr, DecidableEq

/-- `Order::market`. -/
def Order.market (symbol : Symbol) (side : OrderSide)
    (quantity : Quantity) : Order :=
  ⟨symbol, side, .market, quantity, none, .pending, none⟩

/-- `Order::fill`. -/
def Order.fill (o : Order) (price : ℚ) : Order :=
  { o with status := .filled, filledPrice := some price }

/-- `Position` (`src/core/order_manager.rs`), without the `opened_at`
wall-clock timestamp. -/
structure Position where
  symbol : Symbol
  quantity : Quantity
  entryPrice : ℚ
  currentPrice : ℚ
  stopLoss : Option ℚ
  takeProfit : Option ℚ
  sourceSignal : String
deriving Repr, DecidableEq

/-- `Position::unrealized_pnl`. -/
def Position.unrealizedPnl (p : Position) : ℚ :=
  (p.currentPrice - p.entryPrice) * (p.quantity.val : ℚ)

/-- `Position::unrealized_pnl_pct`. -/
def Position.unrealizedPnlPct (p : Position) : ℚ :=
  (p.currentPrice / p.entryPrice - 1) * 100

/-- `Position::stop_loss_hit`. -/
def Position.stopLossHit (p : Position) : Bool :=
  match p.stopLoss with
  | some stop => p.currentPrice ≤ stop
  | none => false

/-- `Position::take_profit_hit`. -/
def Position.takeProfitHit (p : Position) : Bool :=
  match p.takeProfit with
  | some target => p.currentPrice ≥ target
  | none => false

/-- `Position::update_price`. -/
def Position.updatePrice (p : Position) (price : ℚ) : Position :=
  { p with currentPrice := price }

/-- The risk-based `PositionSizer` of `src/core/order_manager.rs` (distinct
from the Kelly-integrated sizer of `src/core/position_sizer.rs`). -/
structure PositionSizer where
  portfolioValue : ℚ
  maxRiskPerTradePct : ℚ
deriving Repr, DecidableEq

/-- Execution errors of the order manager; the Rust code reports them as
`anyhow` messages, the embedding as constructors. -/
inductive ExecError where
  | alreadyHavePosition (symbol : Symbol)
  | stopLossRequired
  | stopTooClose (distance : ℚ)
  | positionTooSmall (shares : Int)
  | riskRejected (violation : RiskViolation)
  | invalidAction (action : SignalAction)
deriving Repr, DecidableEq

/-- `PositionSizer::calculate_size`: `shares = floor(risk dollars /
stop distance)` (the `as i32` cast of the non-overflowing float is its
floor). -/
def PositionSizer.calculateSize (sizer : PositionSizer) (entryPrice : ℚ)
    (stopLoss : Option ℚ) : Except ExecError Quantity :=
  match stopLoss with
  | none => .error .stopLossRequired
  | some stop =>
    let riskDollars := sizer.portfolioValue
      * (sizer.maxRiskPerTradePct / 100)
    let stopDistance := |entryPrice - stop|
    if stopDistance < 1/100 then
      .error (.stopTooClose stopDistance)
    else
      let shares := ⌊riskDollars / stopDistance⌋
      if shares ≤ 0 then
        .error (.positionTooSmall shares)
      else
        .ok (Quantity.buy shares.toNat)

/-- `OrderManagerConfig` (`src/core/order_manager.rs`). -/
structure OrderManagerConfig where
  maxPositions : Nat
  maxRiskPerTradePct : ℚ
  paperTrading : Bool
deriving Repr, DecidableEq

/-- `OrderManagerConfig::default`. -/
def OrderManagerConfig.default : OrderManagerConfig :=
  ⟨10, 1/2, true⟩

/-- `CloseReason` (`src/core/order_manager.rs`). -/
inductive CloseReason where
  | stopLoss
  | takeProfit
  | manual
  | timeout
deriving Repr, DecidableEq

/-- `Trade` (`src/core/order_manager.rs`), without the wall-clock
timestamps. -/
structure Trade where
  symbol : Symbol
  side : OrderSide
  quantity : Quantity
  entryPrice : ℚ
  exitPrice : ℚ
  pnl : ℚ
  pnlPct : ℚ
  closeReason : CloseReason
deriving Repr, DecidableEq

/-- `OrderManager` (`src/core/order_manager.rs`). -/
structure OrderManager where
  cash : ℚ
  positions : List (Symbol × Position)
  tradeHistory : List Trade
  sizer : PositionSizer
  riskManager : RiskManager
  config : OrderManagerConfig
deriving Repr, DecidableEq

/-- `OrderManager::new`. -/
def OrderManager.new (initialCash : ℚ) (config : OrderManagerConfig) :
    OrderManager :=
  let sizer : PositionSizer := ⟨initialCash, config.maxRiskPerTradePct⟩
  let riskConfig : RiskManagerConfig :=
    ⟨config.maxRiskPerTradePct, 5, 50, 3, initialCash * (1/2)⟩
  ⟨initialCash, [], [], sizer, RiskManager.new riskConfig initialCash,
    config⟩

/-- `OrderManager::portfolio_value`. -/
def OrderManager.portfolioValue (om : OrderManager) : ℚ :=
  om.cash + (om.positions.map
    (fun p => p.2.currentPrice * (p.2.quantity.val : ℚ))).sum

/-- `OrderManager::execute_signal`. The Rust method mutates `self` and
returns a `Result<Order>`; the embedding returns the result together with
the successor state (which can differ from the input state even on
failure, because the risk manager's portfolio value is refreshed before
the risk check). -/
def OrderManager.executeSignal (om : OrderManager) (signal : Signal)
    (currentPrice : ℚ) : Except ExecError Order × OrderManager :=
  -- Check if we already have position in this symbol
  if alContains signal.symbol om.positions then
    (.error (.alreadyHavePosition signal.symbol), om)
  else
    -- Calculate position size
    match om.sizer.calculateSize currentPrice signal.stopLoss with
    | .error e => (.error e, om)
    | .ok quantity =>
      match signal.stopLoss with
      | none => (.error .stopLossRequired, om)
      | some stopLoss =>
        let positionValue := currentPrice * (quantity.val : ℚ)
        let riskAmount := |currentPrice - stopLoss| * (quantity.val : ℚ)
        -- Build position values map for correlation check
        let positionValues : List (Symbol × ℚ) := om.positions.map
          (fun p => (p.1, p.2.currentPrice * (p.2.quantity.val : ℚ)))
        -- Update risk manager with current portfolio value
        let om := { om with
          riskManager := om.riskManager.updatePortfolioValue
            om.portfolioValue }
        -- Risk check
        match om.riskManager.checkTrade signal.symbol positionValue
          riskAmount positionValues om.config.maxPositions om.cash with
        | .rejected violation => (.error (.riskRejected violation), om)
        | .approved =>
          match signal.action with
          | .close => (.error (.invalidAction signal.action), om)
          | .hold => (.error (.invalidAction signal.action), om)
          | a =>
            let side := if a = SignalAction.buy then OrderSide.buy
              else OrderSide.sell
            let order := Order.market signal.symbol side quantity
            if om.config.paperTrading then
              let order := order.fill currentPrice
              let position : Position := ⟨signal.symbol, quantity,
                currentPrice, currentPrice, signal.stopLoss,
                signal.takeProfit, signal.source⟩
              let cost := currentPrice * (quantity.val : ℚ)
              let om := { om with cash := om.cash - cost }
              let om := { om with
                positions := alInsert signal.symbol position om.positions }
              (.ok order, om)
            else
              (.ok order, om)

/-- `OrderManager::update_positions`. -/
def OrderManager.updatePositions (om : OrderManager)
    (snapshot : MarketSnapshot) : OrderManager :=
  { om with positions := om.positions.map fun p =>
      match alLookup p.1 snapshot with
      | some marketData => (p.1, p.2.updatePrice marketData.lastPrice)
      | none => p }

/-- `OrderManager::close_position`. -/
def OrderManager.closePosition (om : OrderManager) (symbol : Symbol)
    (reason : CloseReason) : Option Trade × OrderManager :=
  match alLookup symbol om.positions with
  | none => (none, om)
  | some position =>
    let om := { om with positions := alErase symbol om.positions }
    let pnl := position.unrealizedPnl
    let pnlPct := position.unrealizedPnlPct
    -- Record trade with risk manager
    let om := { om with riskManager := om.riskManager.recordTrade pnl }
    -- Update cash
    let proceeds := position.currentPrice * (position.quantity.val : ℚ)
    let om := { om with cash := om.cash + proceeds }
    -- Update risk manager with new portfolio value
    let om := { om with
      riskManager := om.riskManager.updatePortfolioValue
        om.portfolioValue }
    let trade : Trade := ⟨symbol, .buy, position.quantity,
      position.entryPrice, position.currentPrice, pnl, pnlPct, reason⟩
    let om := { om with tradeHistory := om.tradeHistory ++ [trade] }
    (some trade, om)

/-- `OrderManager::check_exits`: stop-loss is tested before take-profit
within each position; every triggered position is then closed. -/
def OrderManager.checkExits (om : OrderManager) :
    List Trade × OrderManager :=
  let toClose : List (Symbol × CloseReason) := om.positions.filterMap
    fun p =>
      if p.2.stopLossHit then some (p.1, CloseReason.stopLoss)
      else if p.2.takeProfitHit then some (p.1, CloseReason.takeProfit)
      else none
  toClose.foldl
    (fun acc sc =>
      match acc.2.closePosition sc.1 sc.2 with
      | (some trade, om) => (acc.1 ++ [trade], om)
      | (none, om) => (acc.1, om))
    ([], om)

/-- One public mutating operation on an `OrderManager`, for stating
invariants over arbitrary operation sequences. -/
inductive OmOp where
  | execute (signal : Signal) (currentPrice : ℚ)
  | update (snapshot : MarketSnapshot)
  | checkExits
  | closePos (symbol : Symbol) (reason : CloseReason)

/-- Apply one operation, discarding its output. -/
def OmOp.apply (om : OrderManager) : OmOp → OrderManager
  | .execute signal currentPrice =>
    (om.executeSignal signal currentPrice).2
  | .update snapshot => om.updatePositions snapshot
  | .checkExits => om.checkExits.2
  | .closePos symbol reason => (om.closePosition symbol reason).2

/-! ### Backtest trade record (`src/backtest/trade.rs`) -/

/-- `ExitReason` (`src/backtest/trade.rs`). -/
inductive ExitReason where
  | stopLoss
  | takeProfit
  | signalReverse
  | riskManagement
  | endOfData
  | timeExit
deriving Repr, DecidableEq

/-- `TradeOutcome` (`src/backtest/trade.rs`). -/
inductive TradeOutcome where
  | winner
  | loser
  | breakeven
deriving Repr, DecidableEq

/-- `BacktestTrade` (`src/backtest/trade.rs`), without the wall-clock
entry/exit timestamps. -/
structure BacktestTrade where
  symbol : Symbol
  action : SignalAction
  entryPrice : ℚ
  exitPrice : Option ℚ
  quantity : Quantity
  commission : ℚ
  slippage : ℚ
  entryConfidence : ℚ
  exitReason : Option ExitReason
  grossPnl : Option ℚ
  netPnl : Option ℚ
deriving Repr, DecidableEq

/-- `BacktestTrade::new`. -/
def BacktestTrade.new (symbol : Symbol) (action : SignalAction)
    (entryPrice : ℚ) (quantity : Quantity) (commission slippage : ℚ)
    (entryConfidence : ℚ) : BacktestTrade :=
  ⟨symbol, action, entryPrice, none, quantity, commission, slippage,
    entryConfidence, none, none, none⟩

/-- `BacktestTrade::close`: gross P&L is the directed price difference
times the quantity; net P&L subtracts both commissions and both slippage
amounts. -/
def BacktestTrade.close (t : BacktestTrade) (exitPrice : ℚ)
    (exitReason : ExitReason) (exitCommission exitSlippage : ℚ) :
    BacktestTrade :=
  let priceDiff :=
    match t.action with
    | .buy => exitPrice - t.entryPrice
    | .sell => t.entryPrice - exitPrice
    | .hold => 0
    | .close => 0
  let gross := priceDiff * (t.quantity.val : ℚ)
  let totalCommission := t.commission + exitCommission
  let totalSlippage := t.slippage + exitSlippage
  { t with exitPrice := some exitPrice, exitReason := some exitReason,
           grossPnl := some gross,
           netPnl := some (gross - totalCommission - totalSlippage) }

/-- `BacktestTrade::is_open`. -/
def BacktestTrade.isOpen (t : BacktestTrade) : Bool :=
  t.exitPrice.isNone

/-- `BacktestTrade::outcome`. -/
def BacktestTrade.outcome (t : BacktestTrade) : Option TradeOutcome :=
  t.netPnl.map fun pnl =>
    if pnl > 1/100 then .winner
    else if pnl < -(1/100) then .loser
    else .breakeven

/-! ### Backtest engine (`src/backtest/engine.rs`) -/

/-- `BacktestConfig` (`src/backtest/engine.rs`). -/
structure BacktestConfig where
  initialCapital : ℚ
  commissionPerTrade : ℚ
  slippagePct : ℚ
  defaultPositionSizePct : ℚ
  useConfidenceSizing : Bool
  riskConfig : RiskManagerConfig
  aggregationStrategy : AggregationStrategy
deriving Repr, DecidableEq

/-- `BacktestConfig::default`. -/
def BacktestConfig.default : BacktestConfig :=
  ⟨10000, 1, 1/20, 10, true, RiskManagerConfig.default, .weightedAverage⟩

/-- `BacktestResult` (`src/backtest/engine.rs`). The `metrics` field (a
pure function of the equity curve and trade list involving real-valued
square roots) is outside this embedding; no claim concerns it. -/
structure BacktestResult where
  trades : List BacktestTrade
  equityCurve : List ℚ
  finalCapital : ℚ
  totalSignals : Nat
  rejectedSignals : Nat
deriving Repr, DecidableEq

/-- `Backtester` (`src/backtest/engine.rs`), generic over the alpha model
state type `A` (the Rust field is `Vec<Box<dyn AlphaModel>>`, an opaque
collaborator; only its `update` and `reset` methods are ever called by
`run`, and they are passed to `run` explicitly below). -/
structure Backtester (A : Type) where
  config : BacktestConfig
  alphas : List A
  aggregator : SignalAggregator
  riskManager : RiskManager

/-- `Backtester::new`. -/
def Backtester.new {A : Type} (config : BacktestConfig) : Backtester A :=
  ⟨config, [], SignalAggregator.new config.aggregationStrategy,
    RiskManager.new config.riskConfig config.initialCapital⟩

/-- `Backtester::apply_slippage`: slippage is added against the trader,
and `Price::new(..).unwrap_or(price)` falls back to the unadjusted price
when the adjusted one is not strictly positive. -/
def applySlippage (config : BacktestConfig) (price : ℚ) (isExit : Bool) :
    ℚ :=
  let slippageAmount := price * (config.slippagePct / 100)
  if isExit then
    if 0 < price - slippageAmount then price - slippageAmount else price
  else
    if 0 < price + slippageAmount then price + slippageAmount else price

/-- `Backtester::should_exit`: opposing aggregated signal first, then the
fixed 2% stop loss, then the fixed 4% take profit. -/
def shouldExit (trade : BacktestTrade) (marketData : MarketData)
    (aggregatedSignals : List Signal) : Option ExitReason :=
  let currentPrice := marketData.mid
  if aggregatedSignals.any
      (fun s => s.symbol = trade.symbol ∧ s.action ≠ trade.action) then
    some .signalReverse
  else
    let stopLossPct : ℚ := 2
    let stopHit : Bool :=
      match trade.action with
      | .buy =>
        decide ((currentPrice - trade.entryPrice) / trade.entryPrice * 100
          < -stopLossPct)
      | .sell =>
        decide ((trade.entryPrice - currentPrice) / trade.entryPrice * 100
          < -stopLossPct)
      | .hold => false
      | .close => false
    if stopHit then some .stopLoss
    else
      let takeProfitPct : ℚ := 4
      let targetHit : Bool :=
        match trade.action with
        | .buy =>
          decide ((currentPrice - trade.entryPrice) / trade.entryPrice
            * 100 > takeProfitPct)
        | .sell =>
          decide ((trade.entryPrice - currentPrice) / trade.entryPrice
            * 100 > takeProfitPct)
        | .hold => false
        | .close => false
      if targetHit then some .takeProfit else none

/-- `Backtester::calculate_position_size`. -/
def calculatePositionSize (config : BacktestConfig) (capital : ℚ)
    (signal : Signal) : ℚ :=
  let baseSizePct :=
    if config.useConfidenceSizing then
      config.defaultPositionSizePct * (1/2 + signal.confidence * (1/2))
    else
      config.defaultPositionSizePct
  capital * (baseSizePct / 100)

/-- The mutable state threaded through the time-step loop of
`Backtester::run`. -/
structure RunState (A : Type) where
  alphas : List A
  capital : ℚ
  equityCurve : List ℚ
  openTrades : List (Symbol × BacktestTrade)
  closedTrades : List BacktestTrade
  totalSignals : Nat
  rejectedSignals : Nat

/-- One iteration of the time-step loop of `Backtester::run` (loop body
for index `i`). -/
def Backtester.runStep {A : Type} (bt : Backtester A)
    (updateA : A → MarketSnapshot → A)
    (historicalData : List (Symbol × List MarketData))
    (symbols : List Symbol) (st : RunState A) (i : Nat) : RunState A :=
  -- Build market snapshot for this time step
  let snapshot : MarketSnapshot := symbols.foldl
    (fun snap sym =>
      match alLookup sym historicalData with
      | some data =>
        match data.get? i with
        | some marketData => alInsert sym marketData snap
        | none => snap
      | none => snap)
    []
  -- Update every alpha; the raw signal list is created empty and never
  -- filled (`let all_signals = Vec::new();` with no push)
  let alphas := st.alphas.map (fun a => updateA a snapshot)
  let allSignals : List Signal := []
  let totalSignals := st.totalSignals + allSignals.length
  -- Aggregate signals
  let aggregated := bt.aggregator.aggregate allSignals
  -- Close existing positions whose exit condition triggers
  let exits := st.openTrades.foldl
    (fun (acc : List (Symbol × BacktestTrade) × ℚ) p =>
      match alLookup p.1 snapshot with
      | some marketData =>
        match shouldExit p.2 marketData aggregated with
        | some exitReason =>
          let exitPrice := applySlippage bt.config marketData.mid true
          let exitSlippage := |exitPrice - marketData.mid|
          let closed := p.2.close exitPrice exitReason
            bt.config.commissionPerTrade exitSlippage
          (acc.1 ++ [(p.1, closed)], acc.2 + closed.netPnl.getD 0)
        | none => (acc.1 ++ [p], acc.2)
      | none => (acc.1 ++ [p], acc.2))
    ([], st.capital)
  let openTrades := exits.1
  let capital := exits.2
  -- Remove closed trades
  let newlyClosed := openTrades.filter (fun p => p.2.isOpen = false)
  let openTrades := openTrades.filter (fun p => p.2.isOpen)
  let closedTrades := st.closedTrades ++ newlyClosed.map Prod.snd
  -- Process new signals
  let proc := aggregated.foldl
    (fun (acc : ℚ × List (Symbol × BacktestTrade) × Nat) signal =>
      if signal.action = SignalAction.hold then acc
      else if alContains signal.symbol acc.2.1 then acc
      else
        match alLookup signal.symbol snapshot with
        | none => acc
        | some marketData =>
          let positionValue := acc.1
            * (bt.config.defaultPositionSizePct / 100)
          let openPositionsMap := acc.2.1.map
            (fun p => (p.1, p.2.entryPrice * (p.2.quantity.val : ℚ)))
          let riskCheck := bt.riskManager.checkTrade signal.symbol
            positionValue (positionValue * (1/100)) openPositionsMap 10
            acc.1
          if riskCheck ≠ RiskCheckResult.approved then
            (acc.1, acc.2.1, acc.2.2 + 1)
          else
            let positionSize := calculatePositionSize bt.config acc.1
              signal
            if positionSize < 1 then acc
            else
              let entryPrice := applySlippage bt.config marketData.mid
                false
              let quantity := Quantity.buy ⌊positionSize⌋.toNat
              let commission := bt.config.commissionPerTrade
              let slippage := |entryPrice - marketData.mid|
              let trade := BacktestTrade.new signal.symbol signal.action
                entryPrice quantity commission slippage signal.confidence
              let tradeCost := entryPrice * (quantity.val : ℚ) + commission
              (acc.1 - tradeCost,
                alInsert signal.symbol trade acc.2.1, acc.2.2))
    (capital, openTrades, st.rejectedSignals)
  let capital := proc.1
  let openTrades := proc.2.1
  let rejectedSignals := proc.2.2
  -- Update equity curve (capital + value of open positions)
  let openPositionsValue := (openTrades.filterMap
    (fun p => (alLookup p.1 snapshot).map
      (fun marketData => marketData.mid * (p.2.quantity.val : ℚ)))).sum
  ⟨alphas, capital, st.equityCurve ++ [capital + openPositionsValue],
    openTrades, closedTrades, totalSignals, rejectedSignals⟩

/-- `Backtester::run`. The alpha collaborator's `update` and `reset`
methods are passed explicitly; `generate_signals` is never called by the
source. -/
def Backtester.run {A : Type} (bt : Backtester A)
    (updateA : A → MarketSnapshot → A) (resetA : A → A)
    (historicalData : List (Symbol × List MarketData))
    (symbols : List Symbol) : Except String BacktestResult :=
  match (historicalData.map (fun p => p.2.length)).min? with
  | none => .error "No historical data provided"
  | some minDataPoints =>
    -- Initialize alphas
    let st : RunState A :=
      ⟨bt.alphas.map resetA, bt.config.initialCapital,
        [bt.config.initialCapital], [], [], 0, 0⟩
    -- Simulate each time step
    let st := (List.range minDataPoints).foldl
      (bt.runStep updateA historicalData symbols) st
    -- Close all remaining positions at the end
    let final := st.openTrades.foldl
      (fun (acc : ℚ × List BacktestTrade) p =>
        match alLookup p.1 historicalData with
        | some dataSeries =>
          match dataSeries.getLast? with
          | some lastData =>
            let exitPrice := applySlippage bt.config lastData.mid true
            let closed := p.2.close exitPrice .endOfData
              bt.config.commissionPerTrade 0
            (acc.1 + closed.netPnl.getD 0, acc.2 ++ [closed])
          | none => acc
        | none => acc)
      (st.capital, st.closedTrades)
    .ok ⟨final.2, st.equityCurve, final.1, st.totalSignals,
      st.rejectedSignals⟩

/-! ### Specification-side auxiliary definitions -/

/-- The length of the trailing run of recorded P&Ls that are ≤ 0,
uninterrupted by any P&L > 0 — the consecutive-loss count as the spec's
sentence for claim C5 words it. -/
def specTrailingLossRun (pnls : List ℚ) : Nat :=
  (pnls.reverse.takeWhile (fun p => decide (p ≤ 0))).length

/-- The length of the trailing run of strictly negative recorded P&Ls,
uninterrupted by any P&L ≥ 0 — what the code actually counts. -/
def trailingNegRun (pnls : List ℚ) : Nat :=
  (pnls.reverse.takeWhile (fun p => decide (p < 0))).length

/-- Folding a whole list of trade P&Ls into the risk manager. -/
def RiskManager.recordTrades (rm : RiskManager) (pnls : List ℚ) :
    RiskManager :=
  pnls.foldl RiskManager.recordTrade rm

/-! ### Kelly refinement (C4) -/

/-- Folding a list of trade P&Ls into the stats. -/
def TradingStats.recordTrades (s : TradingStats) (pnls : List ℚ) :
    TradingStats :=
  pnls.foldl TradingStats.recordTrade s

/-- Folding a list of trade P&Ls into the Kelly calculator. -/
def KellyCriterion.recordTrades (k : KellyCriterion) (pnls : List ℚ) :
    KellyCriterion :=
  pnls.foldl KellyCriterion.recordTrade k

/-- The win rate `p` as a plain rational (the spec's `p`). -/
def TradingStats.winRateQ (s : TradingStats) : ℚ :=
  (s.wins : ℚ) / (s.totalTrades : ℚ)

/-- The average win as a plain rational. -/
def TradingStats.avgWinQ (s : TradingStats) : ℚ :=
  s.totalWinAmount / (s.wins : ℚ)

/-- The average loss as a plain rational. -/
def TradingStats.avgLossQ (s : TradingStats) : ℚ :=
  s.totalLossAmount / (s.losses : ℚ)

/-- The win/loss ratio `b = average win / average loss` (the spec's
`b`). -/
def TradingStats.ratioQ (s : TradingStats) : ℚ :=
  s.avgWinQ / s.avgLossQ

/-- Raw Kelly `(p·b − q)/b` with `q = 1 − p` (the spec's formula). -/
def rawKellyQ (s : TradingStats) : ℚ :=
  (s.winRateQ * s.ratioQ - (1 - s.winRateQ)) / s.ratioQ

/-- Follows the spec's words for claim C4: `kelly_pct()` returns `None`
unless trade count ≥ minimum AND at least one win and one loss exist AND
win rate ≥ `min_win_rate`; otherwise it is raw Kelly scaled by
`kelly_fraction`, `None` when the scaled result is ≤ 0 (the function
reports the value as a percentage, hence the factor 100 — the spec's own
Kelly example reads raw Kelly 40% and half-Kelly 20.0). -/
def specKellyPct (cfg : KellyConfig) (s : TradingStats) : Option ℚ :=
  if s.hasSufficientData cfg.minTradesForKelly
      ∧ cfg.minWinRate ≤ s.winRateQ
      ∧ 0 < rawKellyQ s * cfg.kellyFraction then
    some (rawKellyQ s * cfg.kellyFraction * 100)
  else
    none

/-- Invariants of every `TradingStats` value reachable through
`record_trade`. -/
def StatsReachable (s : TradingStats) : Prop :=
  s.wins ≤ s.totalTrades
    ∧ 0 ≤ s.totalWinAmount
    ∧ 0 ≤ s.totalLossAmount
    ∧ (0 < s.wins → 0 < s.totalWinAmount)
    ∧ (0 < s.losses → 0 < s.totalLossAmount)

/-! ### Integrated sizer behaviour on rejection (C7) -/

/-- The Kelly summary computed in step 1 of `calculate_position`. -/
def IntegratedPositionSizer.kellySummaryOf (s : IntegratedPositionSizer)
    (signal : Signal) (currentPrice : ℚ) : PositionSummary :=
  s.kelly.positionSummary s.portfolioValue currentPrice
    (some signal.confidence)

/-- The risk amount computed in step 2 of `calculate_position`. -/
def IntegratedPositionSizer.riskAmountOf (s : IntegratedPositionSizer)
    (signal : Signal) (currentPrice : ℚ) : ℚ :=
  match signal.stopLoss with
  | some stopLoss =>
    |currentPrice - stopLoss|
      * ((s.kellySummaryOf signal currentPrice).quantity : ℚ)
  | none => (s.kellySummaryOf signal currentPrice).positionValue * (2/100)

/-- The risk-manager verdict obtained in step 3 of `calculate_position`. -/
def IntegratedPositionSizer.riskCheckOf (s : IntegratedPositionSizer)
    (signal : Signal) (currentPrice : ℚ)
    (openPositions : List (Symbol × ℚ)) (maxPositions : Nat) (cash : ℚ) :
    RiskCheckResult :=
  s.riskManager.checkTrade signal.symbol
    (s.kellySummaryOf signal currentPrice).positionValue
    (s.riskAmountOf signal currentPrice) openPositions maxPositions cash

/-- The maximum allowed risk amount in dollars. -/
def IntegratedPositionSizer.maxRiskAmount (s : IntegratedPositionSizer) :
    ℚ :=
  s.riskManager.config.maxRiskPerTradePct / 100 * s.portfolioValue

/-- Whether a violation is the `ExcessiveRisk` variant. -/
def RiskViolation.isExcessiveRisk : RiskViolation → Bool
  | .excessiveRisk _ _ => true
  | _ => false

/-- A sizer that wants a 10%-of-portfolio position on a $10,000
portfolio. -/
def c7sizer : IntegratedPositionSizer :=
  IntegratedPositionSizer.new ⟨1/2, 2/5, 10, 1/2, 20, 10⟩
    RiskManagerConfig.default 10000

/-- A Buy signal at confidence 0.9 with a wide $50 stop. -/
def c7signal : Signal :=
  ⟨"AAPL", .buy, 9/10, "wide stop", "TestAlpha", none, some 100, none,
    none⟩

/-! ### Order manager execution (C6) -/

/-- A fresh order manager with $10,000 and the default configuration. -/
def c6om : OrderManager := OrderManager.new 10000 OrderManagerConfig.default

/-- A Buy signal with a $95 stop, to be executed at $100. -/
def c6signal : Signal :=
  ⟨"AAPL", .buy, 8/10, "entry", "TestAlpha", none, some 95, none, none⟩

/-- The state invariant maintained by the time-step loop of `run`: no
signals counted, no trade ever opened or closed, capital untouched and
every equity point at the initial capital. -/
def RunInv {A : Type} (init : ℚ) (st : RunState A) : Prop :=
  st.capital = init ∧ st.openTrades = [] ∧ st.closedTrades = []
    ∧ st.totalSignals = 0 ∧ st.rejectedSignals = 0
    ∧ ∀ x ∈ st.equityCurve, x = init

/-! ### Theorems -/

theorem trailingNegRun_append (pnls : List ℚ) (x : ℚ) :
    trailingNegRun (pnls ++ [x])
      = if x < 0 then trailingNegRun pnls + 1 else 0 := by
  simp only [trailingNegRun, List.reverse_append, List.reverse_cons,
    List.reverse_nil, List.nil_append, List.singleton_append,
    List.takeWhile_cons]
  by_cases h : x < 0 <;> simp [h]

theorem recordTrade_consecutiveLosses (rm : RiskManager) (pnl : ℚ) :
    (rm.recordTrade pnl).consecutiveLosses
      = if pnl < 0 then rm.consecutiveLosses + 1 else 0 := by
  unfold RiskManager.recordTrade
  by_cases h : pnl < 0 <;> simp [h]

/-- C5 (counterexample). The claim counts `pnl ≤ 0` calls as extending
the loss streak; recording a single breakeven trade (`pnl = 0`) leaves
the code's counter at 0 while the spec-side trailing run of `pnl ≤ 0`
calls has length 1. -/
theorem recordTrade_zero_pnl_resets :
    ((RiskManager.new RiskManagerConfig.default 10000).recordTrades
        [0]).consecutiveLosses = 0
      ∧ specTrailingLossRun [0] = 1 := by
  constructor
  · rfl
  · rfl

/-- C5 (amended): after any sequence of `record_trade` calls on a fresh
risk manager, the consecutive-loss counter equals the length of the
trailing run of calls with strictly negative P&L, uninterrupted by any
call with P&L ≥ 0 (a zero-P&L call resets the counter). -/
theorem recordTrades_consecutiveLosses (cfg : RiskManagerConfig)
    (initialValue : ℚ) (pnls : List ℚ) :
    ((RiskManager.new cfg initialValue).recordTrades pnls).consecutiveLosses
      = trailingNegRun pnls := by
  induction pnls using List.reverseRecOn with
  | nil => rfl
  | append_singleton l x ih =>
    unfold RiskManager.recordTrades at ih ⊢
    rw [List.foldl_append, List.foldl_cons, List.foldl_nil,
      recordTrade_consecutiveLosses, trailingNegRun_append, ih]

/-- C8 (counterexample). `Quantity::buy(0)` and `Quantity::sell(0)` are
public constructors and return a zero quantity without any validation
error. -/
theorem quantity_buy_zero :
    (Quantity.buy 0).val = 0 ∧ (Quantity.sell 0).val = 0 := by
  constructor <;> rfl

/-- C8 (amended): `Quantity::new` alone validates — it fails on zero, so
every quantity obtained through it is nonzero; `Quantity::buy` and
`Quantity::sell` perform no validation and yield a zero quantity when
given zero. -/
theorem quantity_new_nonzero :
    (∀ (v : Int) (q : Quantity), Quantity.new v = some q → q.val ≠ 0)
      ∧ Quantity.new 0 = none := by
  constructor
  · intro v q h
    unfold Quantity.new at h
    by_cases hv : v = 0
    · simp [hv] at h
    · simp [hv] at h
      rw [← h]
      exact hv
  · rfl

theorem quantity_new_nonzero_witness :
    Quantity.new 5 = some ⟨5⟩ ∧ (5 : Int) ≠ 0 :=
  ⟨by decide, quantity_new_nonzero.1 5 ⟨5⟩ (by decide)⟩

/-- C10 (confirmed): a Buy trade entered at $100 for 10 shares with $1
commission and 0.1 slippage on entry, closed at $110 with $1 commission
and 0.1 slippage on exit, nets
`(110 − 100) × 10 − 2 × 1 − 2 × 0.1 = 97.8`. -/
theorem backtest_trade_round_trip_pnl :
    ((BacktestTrade.new "AAPL" .buy 100 (Quantity.buy 10) 1 (1/10)
        (85/100)).close 110 .takeProfit 1 (1/10)).netPnl
      = some ((110 - 100) * 10 - 2 * 1 - 2 * (1/10)) := by
  norm_num [BacktestTrade.new, BacktestTrade.close, Quantity.buy, toI64]

/-- C9 (confirmed): the Unanimous strategy yields no aggregated signal
for a group whose actions are not all equal, whatever the confidences. -/
theorem unanimous_disagreement (agg : SignalAggregator) (first : Signal)
    (rest : List Signal)
    (h : ¬ ∀ s ∈ first :: rest, s.action = first.action) :
    agg.unanimous (first :: rest) = none := by
  unfold SignalAggregator.unanimous
  have hall : ((first :: rest).all fun s => s.action = first.action)
      = false := by
    rw [List.all_eq_false]
    rcases not_forall.mp h with ⟨s, hs⟩
    rcases Classical.not_imp.mp hs with ⟨hmem, hne⟩
    exact ⟨s, hmem, by simpa using hne⟩
  simp [hall]

theorem unanimous_disagreement_witness :
    (SignalAggregator.new .unanimous).unanimous
      [⟨"AAPL", .buy, 8/10, "r", "a", none, none, none, none⟩,
       ⟨"AAPL", .sell, 7/10, "r", "b", none, none, none, none⟩]
      = none :=
  unanimous_disagreement (SignalAggregator.new .unanimous)
    ⟨"AAPL", .buy, 8/10, "r", "a", none, none, none, none⟩
    [⟨"AAPL", .sell, 7/10, "r", "b", none, none, none, none⟩]
    (by decide)

/-- C1 (confirmed): `check_trade` evaluates the seven checks in the fixed
order emergency stop, daily drawdown, consecutive losses, per-trade risk,
position count, capital sufficiency, correlation exposure
(`checkViolations` lists them independently in that order); the result is
`Rejected` carrying the violation of the first failing check, and
`Approved` exactly when no check fails. -/
theorem checkTrade_first_failing_check (rm : RiskManager) (symbol : Symbol)
    (positionValue riskAmount : ℚ) (openPositions : List (Symbol × ℚ))
    (maxPositions : Nat) (cash : ℚ) :
    (rm.checkTrade symbol positionValue riskAmount openPositions
        maxPositions cash
      = match (rm.checkViolations symbol positionValue riskAmount
            openPositions maxPositions cash).findSome? id with
        | some v => .rejected v
        | none => .approved)
    ∧ (rm.checkTrade symbol positionValue riskAmount openPositions
          maxPositions cash = .approved
        ↔ ∀ o ∈ rm.checkViolations symbol positionValue riskAmount
            openPositions maxPositions cash, o = none) := by
  unfold RiskManager.checkTrade RiskManager.checkViolations
  by_cases h1 : rm.currentValue ≤ rm.config.emergencyStopValue
  · simp [h1, List.findSome?]
  · by_cases h2 : (rm.dayStartValue - rm.currentValue) / rm.dayStartValue
        * 100 ≥ rm.config.maxDailyDrawdownPct
    · simp [h1, h2, List.findSome?]
    · by_cases h3 : rm.consecutiveLosses ≥ rm.config.maxConsecutiveLosses
      · simp [h1, h2, h3, List.findSome?]
      · by_cases h4 : riskAmount / rm.currentValue * 100
            > rm.config.maxRiskPerTradePct
        · simp [h1, h2, h3, h4, List.findSome?]
        · by_cases h5 : openPositions.length ≥ maxPositions
          · simp [h1, h2, h3, h4, h5, List.findSome?]
          · by_cases h6 : cash < positionValue
            · simp [h1, h2, h3, h4, h5, h6, List.findSome?]
            · cases h7 : rm.checkCorrelationExposure symbol positionValue
                openPositions <;>
                simp [h1, h2, h3, h4, h5, h6, h7, List.findSome?]

theorem statsReachable_new : StatsReachable TradingStats.new := by
  refine ⟨Nat.le_refl 0, le_refl 0, le_refl 0, ?_, ?_⟩ <;> intro h <;>
    exact absurd h (by decide)

theorem statsReachable_recordTrade {s : TradingStats}
    (h : StatsReachable s) (pnl : ℚ) :
    StatsReachable (s.recordTrade pnl) := by
  obtain ⟨h1, h2, h3, h4, h5⟩ := h
  unfold TradingStats.recordTrade StatsReachable
  by_cases hp : pnl > 0
  · simp only [hp, if_true]
    refine ⟨by omega, by positivity, h3, fun _ => ?_, h5⟩
    have := lt_of_lt_of_le hp (le_add_of_nonneg_left h2)
    linarith
  · simp only [hp, if_false]
    by_cases hn : pnl < 0
    · simp only [hn, if_true]
      refine ⟨by omega, h2, ?_, h4, fun _ => ?_⟩
      · have : (0:ℚ) ≤ |pnl| := abs_nonneg pnl
        linarith
      · have : (0:ℚ) < |pnl| := abs_pos.mpr (ne_of_lt hn)
        linarith
    · simp only [hn, if_false]
      exact ⟨by omega, h2, h3, h4, h5⟩

theorem statsReachable_recordTrades {s : TradingStats}
    (h : StatsReachable s) (pnls : List ℚ) :
    StatsReachable (s.recordTrades pnls) := by
  induction pnls generalizing s with
  | nil => exact h
  | cons x xs ih =>
    exact ih (statsReachable_recordTrade h x)

theorem kellyCriterion_recordTrades_stats (cfg : KellyConfig)
    (pnls : List ℚ) :
    (KellyCriterion.withConfig cfg).recordTrades pnls
      = ⟨cfg, TradingStats.new.recordTrades pnls⟩ := by
  suffices h : ∀ (s : TradingStats),
      (⟨cfg, s⟩ : KellyCriterion).recordTrades pnls
        = ⟨cfg, s.recordTrades pnls⟩ by
    exact h TradingStats.new
  induction pnls with
  | nil => intro s; rfl
  | cons x xs ih =>
    intro s
    unfold KellyCriterion.recordTrades TradingStats.recordTrades
    rw [List.foldl_cons, List.foldl_cons]
    exact ih (s.recordTrade x)

theorem kellyPct_eq_spec_of_reachable (cfg : KellyConfig)
    {s : TradingStats} (h : StatsReachable s) :
    (⟨cfg, s⟩ : KellyCriterion).kellyPct = specKellyPct cfg s := by
  obtain ⟨hwt, hwa, hla, hwp, hlp⟩ := h
  unfold KellyCriterion.kellyPct specKellyPct
  by_cases hs : s.hasSufficientData cfg.minTradesForKelly
  · obtain ⟨htot, hw, hl⟩ := hs
    have htpos : 0 < s.totalTrades := lt_of_lt_of_le hw hwt
    have hwrate : s.winRate = some s.winRateQ := by
      unfold TradingStats.winRate TradingStats.winRateQ
      simp [Nat.pos_iff_ne_zero.mp htpos]
    have havgw : s.avgWin = some s.avgWinQ := by
      unfold TradingStats.avgWin TradingStats.avgWinQ
      simp [Nat.pos_iff_ne_zero.mp hw]
    have havgl : s.avgLoss = some s.avgLossQ := by
      unfold TradingStats.avgLoss TradingStats.avgLossQ
      simp [Nat.pos_iff_ne_zero.mp hl]
    have hlosspos : 0 < s.avgLossQ := by
      unfold TradingStats.avgLossQ
      have : (0:ℚ) < s.losses := by exact_mod_cast hl
      exact div_pos (hlp hl) this
    have hratio : s.winLossRatio = some s.ratioQ := by
      unfold TradingStats.winLossRatio TradingStats.ratioQ
      rw [havgw, havgl]
      simp [ne_of_gt hlosspos]
    have hs' : s.hasSufficientData cfg.minTradesForKelly := ⟨htot, hw, hl⟩
    simp only [hs', not_true, if_false, ite_false]
    rw [Option.bind_eq_bind]
    simp only [hs', if_neg (not_not_intro hs'), hwrate, hratio,
      Option.some_bind]
    by_cases hwr : s.winRateQ < cfg.minWinRate
    · simp [hwr, not_le.mpr hwr, rawKellyQ]
    · have hge : cfg.minWinRate ≤ s.winRateQ := not_lt.mp hwr
      by_cases hadj : (s.winRateQ * s.ratioQ - (1 - s.winRateQ))
          / s.ratioQ * cfg.kellyFraction ≤ 0
      · simp [hwr, hadj, rawKellyQ, hge, not_lt.mpr hadj]
      · have hpos : 0 < rawKellyQ s * cfg.kellyFraction := by
          unfold rawKellyQ
          exact not_le.mp hadj
        simp [hwr, hadj, rawKellyQ, hge, hpos]
        exact not_le.mp hadj
  · simp [hs]

/-- C4 (confirmed): over any history of `record_trade` calls, `kelly_pct`
returns `None` unless the trade count reaches the configured minimum, at
least one win and one loss were recorded, and the win rate is at least
`min_win_rate`; otherwise it returns raw Kelly `(p·b − q)/b` scaled by
`kelly_fraction` (as a percentage), `None` when that scaled result
is ≤ 0. -/
theorem kellyPct_spec (cfg : KellyConfig) (pnls : List ℚ) :
    ((KellyCriterion.withConfig cfg).recordTrades pnls).kellyPct
      = specKellyPct cfg (TradingStats.new.recordTrades pnls) := by
  rw [kellyCriterion_recordTrades_stats]
  exact kellyPct_eq_spec_of_reachable cfg
    (statsReachable_recordTrades statsReachable_new pnls)

theorem toNat_floor_le (x : ℚ) (h : 0 < (⌊x⌋).toNat) :
    (((⌊x⌋).toNat : ℚ)) ≤ x := by
  have hn : 0 ≤ ⌊x⌋ := by omega
  have h1 : ((⌊x⌋.toNat : ℤ) : ℚ) ≤ x := by
    rw [Int.toNat_of_nonneg hn]
    exact Int.floor_le x
  exact_mod_cast h1

/-- C7 (confirmed): when the risk manager rejects the Kelly-derived size
specifically with `ExcessiveRisk`, `calculate_position` returns a
`Reduced` decision whose quantity is the recomputation against the
max-risk-per-trade cap (stop-loss distance when present, assumed 2% stop
otherwise) provided that quantity is positive, and an error otherwise;
every rejection with any other violation is returned as a hard error.
The recomputed quantity satisfies the cap: through the stop distance when
a stop-loss exists, through the assumed 2% of position value when not. -/
theorem calculatePosition_excessive_risk (s : IntegratedPositionSizer)
    (signal : Signal) (currentPrice : ℚ)
    (openPositions : List (Symbol × ℚ)) (maxPositions : Nat) (cash : ℚ)
    (hprice : 0 < currentPrice) :
    (∀ riskPct maxAllowed,
      s.riskCheckOf signal currentPrice openPositions maxPositions cash
          = .rejected (.excessiveRisk riskPct maxAllowed) →
        (0 < s.adjustedQuantity signal currentPrice →
          s.calculatePosition signal currentPrice openPositions
              maxPositions cash
            = .ok ⟨signal.symbol, s.adjustedQuantity signal currentPrice,
                (s.adjustedQuantity signal currentPrice : ℚ) * currentPrice,
                (s.adjustedQuantity signal currentPrice : ℚ) * currentPrice
                  / s.portfolioValue * 100,
                s.maxRiskAmount, s.riskManager.config.maxRiskPerTradePct,
                .fixed, (s.kellySummaryOf signal currentPrice).kellyPct,
                .reduced, some (.excessiveRisk riskPct maxAllowed)⟩)
        ∧ (s.adjustedQuantity signal currentPrice = 0 →
          s.calculatePosition signal currentPrice openPositions
              maxPositions cash
            = .error (.excessiveRisk riskPct maxAllowed)))
    ∧ (∀ stopLoss, signal.stopLoss = some stopLoss →
        0 < s.adjustedQuantity signal currentPrice →
        (s.adjustedQuantity signal currentPrice : ℚ)
          * |currentPrice - stopLoss| ≤ s.maxRiskAmount)
    ∧ (signal.stopLoss = none →
        0 < s.adjustedQuantity signal currentPrice →
        (s.adjustedQuantity signal currentPrice : ℚ) * currentPrice
          * (2/100) ≤ s.maxRiskAmount)
    ∧ (∀ v,
      s.riskCheckOf signal currentPrice openPositions maxPositions cash
          = .rejected v →
        v.isExcessiveRisk = false →
        s.calculatePosition signal currentPrice openPositions maxPositions
            cash
          = .error v) := by
  refine ⟨?_, ?_, ?_, ?_⟩
  · intro riskPct maxAllowed hcheck
    simp only [IntegratedPositionSizer.riskCheckOf,
      IntegratedPositionSizer.kellySummaryOf,
      IntegratedPositionSizer.riskAmountOf] at hcheck
    constructor
    · intro haq
      simp only [IntegratedPositionSizer.calculatePosition]
      rw [hcheck]
      simp [haq, IntegratedPositionSizer.maxRiskAmount,
        IntegratedPositionSizer.kellySummaryOf]
    · intro haq
      simp only [IntegratedPositionSizer.calculatePosition]
      rw [hcheck]
      simp [haq]
  · intro stopLoss hstop haq
    unfold IntegratedPositionSizer.adjustedQuantity at haq ⊢
    rw [hstop] at haq ⊢
    simp only at haq ⊢
    by_cases hrps : |currentPrice - stopLoss| > 0
    · simp only [hrps, if_true] at haq ⊢
      have hle := toNat_floor_le
        (s.maxRiskAmount / |currentPrice - stopLoss|) (by
          unfold IntegratedPositionSizer.maxRiskAmount
          exact haq)
      unfold IntegratedPositionSizer.maxRiskAmount at hle ⊢
      exact (le_div_iff₀ hrps).mp hle
    · simp [hrps] at haq
  · intro hstop haq
    unfold IntegratedPositionSizer.adjustedQuantity at haq ⊢
    rw [hstop] at haq ⊢
    simp only at haq ⊢
    have hle := toNat_floor_le
      ((s.maxRiskAmount / (2/100)) / currentPrice) (by
        unfold IntegratedPositionSizer.maxRiskAmount
        exact haq)
    unfold IntegratedPositionSizer.maxRiskAmount at hle ⊢
    have h1 := (le_div_iff₀ hprice).mp hle
    exact (le_div_iff₀ (by norm_num : (0:ℚ) < 2/100)).mp h1
  · intro v hcheck hnotex
    simp only [IntegratedPositionSizer.riskCheckOf,
      IntegratedPositionSizer.kellySummaryOf,
      IntegratedPositionSizer.riskAmountOf] at hcheck
    simp only [IntegratedPositionSizer.calculatePosition]
    rw [hcheck]
    cases v <;> simp_all [RiskViolation.isExcessiveRisk]

theorem calculatePosition_excessive_risk_witness :
    c7sizer.calculatePosition c7signal 150 [] 10 10000
      = .ok ⟨c7signal.symbol, c7sizer.adjustedQuantity c7signal 150,
          (c7sizer.adjustedQuantity c7signal 150 : ℚ) * 150,
          (c7sizer.adjustedQuantity c7signal 150 : ℚ) * 150
            / c7sizer.portfolioValue * 100,
          c7sizer.maxRiskAmount,
          c7sizer.riskManager.config.maxRiskPerTradePct, .fixed,
          (c7sizer.kellySummaryOf c7signal 150).kellyPct, .reduced,
          some (.excessiveRisk 3 (1/2))⟩ :=
  ((calculatePosition_excessive_risk c7sizer c7signal 150 [] 10 10000
      (by norm_num)).1 3 (1/2)
    (by
      norm_num [c7sizer, c7signal, IntegratedPositionSizer.riskCheckOf,
        IntegratedPositionSizer.kellySummaryOf,
        IntegratedPositionSizer.riskAmountOf, IntegratedPositionSizer.new,
        KellyCriterion.positionSummary, KellyCriterion.positionSize,
        KellyCriterion.calculateQuantity, KellyCriterion.kellyPct,
        KellyCriterion.withConfig, TradingStats.new,
        TradingStats.hasSufficientData, RiskManager.checkTrade,
        RiskManager.checkCorrelationExposure, defaultCorrelationGroups,
        groupExposure, alLookup, RiskManager.new, RiskManagerConfig.default]
      norm_cast
      norm_num)).1
    (by
      norm_num [c7sizer, c7signal, IntegratedPositionSizer.adjustedQuantity,
        IntegratedPositionSizer.new, IntegratedPositionSizer.maxRiskAmount,
        RiskManagerConfig.default, RiskManager.new])

/-- C6 (counterexample). A successful execution at $100 for 10 shares
debits cash by exactly `100 × 10 = 1000`: the order manager charges no
commission, so the claimed debit of `price × quantity + commission` fails
— in particular for the spec's default fixed commission of $1. -/
theorem executeSignal_no_commission :
    (c6om.executeSignal c6signal 100).1
        = .ok ⟨"AAPL", .buy, .market, ⟨10⟩, none, .filled, some 100⟩
      ∧ (c6om.executeSignal c6signal 100).2.cash = c6om.cash - 100 * 10
      ∧ (c6om.executeSignal c6signal 100).2.cash
          ≠ c6om.cash - (100 * 10 + 1) := by
  have hcash : (c6om.executeSignal c6signal 100).2.cash = 9000 := by
    norm_num [c6om, c6signal, OrderManager.executeSignal, OrderManager.new,
      PositionSizer.calculateSize, Quantity.buy, toI64,
      OrderManager.portfolioValue, RiskManager.checkTrade,
      RiskManager.checkCorrelationExposure, defaultCorrelationGroups,
      groupExposure, alLookup, alContains, alInsert, RiskManager.new,
      RiskManager.updatePortfolioValue, OrderManagerConfig.default,
      Order.market, Order.fill]
  have hom : c6om.cash = 10000 := by
    norm_num [c6om, OrderManager.new]
  refine ⟨?_, ?_, ?_⟩
  · norm_num [c6om, c6signal, OrderManager.executeSignal, OrderManager.new,
      PositionSizer.calculateSize, Quantity.buy, toI64,
      OrderManager.portfolioValue, RiskManager.checkTrade,
      RiskManager.checkCorrelationExposure, defaultCorrelationGroups,
      groupExposure, alLookup, alContains, alInsert, RiskManager.new,
      RiskManager.updatePortfolioValue, OrderManagerConfig.default,
      Order.market, Order.fill]
  · rw [hcash, hom]
    norm_num
  · rw [hcash, hom]
    norm_num

theorem alLookup_append_self {κ α : Type} [DecidableEq κ] (k : κ) (v : α)
    (l : List (κ × α)) (h : alContains k l = false) :
    alLookup k (l ++ [(k, v)]) = some v := by
  induction l with
  | nil => simp [alLookup]
  | cons p rest ih =>
    by_cases hp : p.1 = k
    · exfalso
      simp [alContains, alLookup, hp] at h
    · simp only [alContains, alLookup, hp, if_false] at h
      rw [List.cons_append]
      simp only [alLookup, hp, if_false]
      exact ih h

/-- C6 (amended): `execute_signal` fails when a position already exists
for the symbol or when the signal has no stop-loss (leaving the state
unchanged), and fails when the risk manager rejects; on success in
paper-trading mode it debits cash by exactly `price × quantity` — no
commission is charged — inserts a new open Position for the symbol, and
returns a filled order record. -/
theorem executeSignal_spec (om : OrderManager) (signal : Signal)
    (currentPrice : ℚ) :
    (alContains signal.symbol om.positions = true →
      om.executeSignal signal currentPrice
        = (.error (.alreadyHavePosition signal.symbol), om))
    ∧ (alContains signal.symbol om.positions = false →
        signal.stopLoss = none →
        om.executeSignal signal currentPrice
          = (.error .stopLossRequired, om))
    ∧ (∀ order om', om.config.paperTrading = true →
        om.executeSignal signal currentPrice = (.ok order, om') →
        om'.cash = om.cash - currentPrice * (order.quantity.val : ℚ)
          ∧ alLookup signal.symbol om'.positions
              = some ⟨signal.symbol, order.quantity, currentPrice,
                  currentPrice, signal.stopLoss, signal.takeProfit,
                  signal.source⟩
          ∧ order.status = .filled
          ∧ order.filledPrice = some currentPrice)
    ∧ (∀ v q stopLoss,
        alContains signal.symbol om.positions = false →
        om.sizer.calculateSize currentPrice signal.stopLoss = .ok q →
        signal.stopLoss = some stopLoss →
        (om.riskManager.updatePortfolioValue om.portfolioValue).checkTrade
            signal.symbol (currentPrice * (q.val : ℚ))
            (|currentPrice - stopLoss| * (q.val : ℚ))
            (om.positions.map (fun p =>
              (p.1, p.2.currentPrice * (p.2.quantity.val : ℚ))))
            om.config.maxPositions om.cash
          = .rejected v →
        (om.executeSignal signal currentPrice).1
          = .error (.riskRejected v)) := by
  refine ⟨?_, ?_, ?_, ?_⟩
  · intro hc
    simp [OrderManager.executeSignal, hc]
  · intro hc hstop
    have hsz : om.sizer.calculateSize currentPrice signal.stopLoss
        = .error .stopLossRequired := by
      rw [hstop]
      rfl
    simp [OrderManager.executeSignal, hc, hsz]
  · intro order om' hpaper h
    by_cases hc : alContains signal.symbol om.positions
    · simp [OrderManager.executeSignal, hc] at h
    · simp only [OrderManager.executeSignal, hc, Bool.false_eq_true,
        if_false] at h
      cases hsz : om.sizer.calculateSize currentPrice signal.stopLoss with
      | error e => rw [hsz] at h; simp at h
      | ok q =>
        rw [hsz] at h
        cases hstop : signal.stopLoss with
        | none => rw [hstop] at h; simp at h
        | some stopLoss =>
          rw [hstop] at h
          simp only at h
          cases hcheck : (om.riskManager.updatePortfolioValue
              om.portfolioValue).checkTrade signal.symbol
              (currentPrice * (q.val : ℚ))
              (|currentPrice - stopLoss| * (q.val : ℚ))
              (om.positions.map (fun p =>
                (p.1, p.2.currentPrice * (p.2.quantity.val : ℚ))))
              om.config.maxPositions om.cash with
          | rejected v => rw [hcheck] at h; simp at h
          | approved =>
            rw [hcheck] at h
            simp only [hpaper, if_true] at h
            cases hact : signal.action <;> rw [hact] at h
            · injection h with h1 h2
              injection h1 with h1
              subst h2
              rw [← h1]
              refine ⟨?_, ?_, ?_, ?_⟩
              · simp [Order.market, Order.fill]
              · simp [Order.market, Order.fill, alInsert, hc, hstop,
                  alLookup]
                exact alLookup_append_self _ _ _ (by simpa using hc)
              · rfl
              · rfl
            · injection h with h1 h2
              injection h1 with h1
              subst h2
              rw [← h1]
              refine ⟨?_, ?_, ?_, ?_⟩
              · simp [Order.market, Order.fill]
              · simp [Order.market, Order.fill, alInsert, hc, hstop,
                  alLookup]
                exact alLookup_append_self _ _ _ (by simpa using hc)
              · rfl
              · rfl
            · simp at h
            · simp at h
  · intro v q stopLoss hc hsz hstop hcheck
    simp only [OrderManager.executeSignal, hc, Bool.false_eq_true,
      if_false]
    rw [hsz, hstop]
    simp only
    rw [hcheck]

theorem executeSignal_spec_witness :
    ((c6om.executeSignal c6signal 100).2).cash
      = c6om.cash - 100 * (((⟨10⟩ : Quantity)).val : ℚ) :=
  ((executeSignal_spec c6om c6signal 100).2.2.1
    ⟨"AAPL", .buy, .market, ⟨10⟩, none, .filled, some 100⟩
    (c6om.executeSignal c6signal 100).2
    (by norm_num [c6om, OrderManager.new, OrderManagerConfig.default])
    (by
      have h1 : (c6om.executeSignal c6signal 100).1
          = .ok ⟨"AAPL", .buy, .market, ⟨10⟩, none, .filled,
              some 100⟩ := by
        norm_num [c6om, c6signal, OrderManager.executeSignal,
          OrderManager.new, PositionSizer.calculateSize, Quantity.buy,
          toI64, OrderManager.portfolioValue, RiskManager.checkTrade,
          RiskManager.checkCorrelationExposure, defaultCorrelationGroups,
          groupExposure, alLookup, alContains, alInsert, RiskManager.new,
          RiskManager.updatePortfolioValue, OrderManagerConfig.default,
          Order.market, Order.fill]
      calc c6om.executeSignal c6signal 100
          = ((c6om.executeSignal c6signal 100).1,
             (c6om.executeSignal c6signal 100).2) := rfl
      _ = (.ok ⟨"AAPL", .buy, .market, ⟨10⟩, none, .filled, some 100⟩,
           (c6om.executeSignal c6signal 100).2) := by rw [h1])).1

/-! ### One-position-per-symbol invariant (C2) -/

theorem alContains_eq_false_iff {κ α : Type} [DecidableEq κ] (k : κ)
    (l : List (κ × α)) : alContains k l = false ↔ k ∉ alKeys l := by
  induction l with
  | nil => simp [alContains, alLookup, alKeys]
  | cons p rest ih =>
    by_cases hp : p.1 = k
    · simp [alContains, alLookup, hp, alKeys]
    · simp only [alContains, alLookup, hp, if_false, alKeys,
        List.map_cons, List.mem_cons] at ih ⊢
      constructor
      · intro h hk
        rcases hk with hk | hk
        · exact hp hk.symm
        · exact (ih.mp h) hk
      · intro h
        exact ih.mpr (fun hk => h (Or.inr hk))

theorem alKeys_map_fst_preserved {κ α : Type} (l : List (κ × α))
    (f : κ × α → κ × α) (hf : ∀ p ∈ l, (f p).1 = p.1) :
    alKeys (l.map f) = alKeys l := by
  unfold alKeys
  rw [List.map_map]
  exact List.map_congr_left (fun p hp => hf p hp)

theorem nodupKeys_alInsert {κ α : Type} [DecidableEq κ] (k : κ) (v : α)
    (l : List (κ × α)) (h : NodupKeys l) : NodupKeys (alInsert k v l) := by
  unfold alInsert
  by_cases hc : alContains k l
  · simp only [hc, if_true]
    unfold NodupKeys at h ⊢
    rw [alKeys_map_fst_preserved l _ (fun p _ => by
      by_cases hp : p.1 = k <;> simp [hp])]
    exact h
  · simp only [hc, Bool.false_eq_true, if_false]
    unfold NodupKeys alKeys at h ⊢
    rw [List.map_append]
    rw [List.nodup_append]
    refine ⟨h, List.nodup_singleton k, ?_⟩
    intro a ha hb
    simp only [List.map_cons, List.map_nil, List.mem_singleton] at hb
    exact (alContains_eq_false_iff k l).mp
      (Bool.eq_false_iff.mpr hc) (hb ▸ ha)

theorem nodupKeys_filter {κ α : Type} (pred : κ × α → Bool)
    (l : List (κ × α)) (h : NodupKeys l) : NodupKeys (l.filter pred) :=
  List.Nodup.sublist (List.Sublist.map Prod.fst (List.filter_sublist l)) h

theorem nodupKeys_alErase {κ α : Type} [DecidableEq κ] (k : κ)
    (l : List (κ × α)) (h : NodupKeys l) : NodupKeys (alErase k l) :=
  nodupKeys_filter _ l h

/-- A fold preserves any invariant its step preserves. -/
theorem foldl_preserves {σ β : Type} (P : σ → Prop) (step : σ → β → σ)
    (hstep : ∀ s b, P s → P (step s b)) (l : List β) (s : σ) (h : P s) :
    P (l.foldl step s) := by
  induction l generalizing s with
  | nil => exact h
  | cons x xs ih => exact ih (step s x) (hstep s x h)

/-- A fold whose step appends exactly one entry keyed like the input
entry produces the keys of the start followed by the keys of the input
list. -/
theorem alKeys_foldl_append {α γ : Type}
    (step : (List (Symbol × α) × γ) → (Symbol × α)
      → (List (Symbol × α) × γ))
    (hstep : ∀ acc p, ∃ q : Symbol × α,
      (step acc p).1 = acc.1 ++ [q] ∧ q.1 = p.1) :
    ∀ (l : List (Symbol × α)) (acc : List (Symbol × α) × γ),
      alKeys ((l.foldl step acc).1) = alKeys acc.1 ++ alKeys l := by
  intro l
  induction l with
  | nil => intro acc; simp [alKeys]
  | cons p rest ih =>
    intro acc
    rw [List.foldl_cons, ih]
    obtain ⟨q, hq, hqk⟩ := hstep acc p
    rw [hq]
    unfold alKeys
    rw [List.map_append]
    simp [hqk]

theorem nodupKeys_closePosition (om : OrderManager) (symbol : Symbol)
    (reason : CloseReason) (h : NodupKeys om.positions) :
    NodupKeys ((om.closePosition symbol reason).2).positions := by
  unfold OrderManager.closePosition
  cases alLookup symbol om.positions with
  | none => exact h
  | some position =>
    simp only
    exact nodupKeys_alErase symbol om.positions h

theorem nodupKeys_checkExits (om : OrderManager)
    (h : NodupKeys om.positions) :
    NodupKeys (om.checkExits.2).positions := by
  unfold OrderManager.checkExits
  simp only
  refine foldl_preserves
    (fun acc : List Trade × OrderManager => NodupKeys acc.2.positions)
    _ ?_ _ ([], om) h
  intro acc sc hacc
  cases hcp : acc.2.closePosition sc.1 sc.2 with
  | mk fst snd =>
    cases fst with
    | none =>
      simp only
      have := nodupKeys_closePosition acc.2 sc.1 sc.2 hacc
      rw [hcp] at this
      exact this
    | some trade =>
      simp only
      have := nodupKeys_closePosition acc.2 sc.1 sc.2 hacc
      rw [hcp] at this
      exact this

theorem nodupKeys_updatePositions (om : OrderManager)
    (snapshot : MarketSnapshot) (h : NodupKeys om.positions) :
    NodupKeys ((om.updatePositions snapshot).positions) := by
  unfold OrderManager.updatePositions NodupKeys
  simp only
  rw [alKeys_map_fst_preserved om.positions _ (fun p _ => by
    cases alLookup p.1 snapshot <;> rfl)]
  exact h

theorem nodupKeys_executeSignal (om : OrderManager) (signal : Signal)
    (currentPrice : ℚ) (h : NodupKeys om.positions) :
    NodupKeys (((om.executeSignal signal currentPrice).2).positions) := by
  unfold OrderManager.executeSignal
  by_cases hc : alContains signal.symbol om.positions
  · simp only [hc, if_true]
    exact h
  · simp only [hc, if_false]
    cases om.sizer.calculateSize currentPrice signal.stopLoss with
    | error e => exact h
    | ok q =>
      cases signal.stopLoss with
      | none => exact h
      | some stopLoss =>
        simp only
        cases (om.riskManager.updatePortfolioValue
            om.portfolioValue).checkTrade signal.symbol
            (currentPrice * (q.val : ℚ))
            (|currentPrice - stopLoss| * (q.val : ℚ))
            (om.positions.map (fun p =>
              (p.1, p.2.currentPrice * (p.2.quantity.val : ℚ))))
            om.config.maxPositions om.cash with
        | rejected violation => exact h
        | approved =>
          cases signal.action with
          | close => exact h
          | hold => exact h
          | buy =>
            by_cases hp : om.config.paperTrading
            · simp only [hp, if_true]
              exact nodupKeys_alInsert _ _ _ h
            · simp only [hp, if_false]
              exact h
          | sell =>
            by_cases hp : om.config.paperTrading
            · simp only [hp, if_true]
              exact nodupKeys_alInsert _ _ _ h
            · simp only [hp, if_false]
              exact h

theorem nodupKeys_omOp (om : OrderManager) (op : OmOp)
    (h : NodupKeys om.positions) : NodupKeys ((op.apply om).positions) := by
  cases op with
  | execute signal currentPrice =>
    exact nodupKeys_executeSignal om signal currentPrice h
  | update snapshot => exact nodupKeys_updatePositions om snapshot h
  | checkExits => exact nodupKeys_checkExits om h
  | closePos symbol reason => exact nodupKeys_closePosition om symbol reason h

theorem nodupKeys_runStep {A : Type} (bt : Backtester A)
    (updateA : A → MarketSnapshot → A)
    (historicalData : List (Symbol × List MarketData))
    (symbols : List Symbol) (st : RunState A) (i : Nat)
    (h : NodupKeys st.openTrades) :
    NodupKeys ((bt.runStep updateA historicalData symbols st i).openTrades)
    := by
  unfold Backtester.runStep
  simp only
  apply foldl_preserves
    (fun acc : ℚ × List (Symbol × BacktestTrade) × Nat =>
      NodupKeys acc.2.1)
  · intro acc signal hacc
    by_cases h1 : signal.action = SignalAction.hold
    · simp only [h1, if_true]
      exact hacc
    · simp only [h1, if_false]
      by_cases h2 : alContains signal.symbol acc.2.1
      · simp only [h2, if_true]
        exact hacc
      · simp only [h2, Bool.false_eq_true, if_false]
        cases alLookup signal.symbol (symbols.foldl
            (fun snap sym =>
              match alLookup sym historicalData with
              | some data =>
                match data.get? i with
                | some marketData => alInsert sym marketData snap
                | none => snap
              | none => snap)
            []) with
        | none => exact hacc
        | some marketData =>
          simp only
          cases hrc : bt.riskManager.checkTrade signal.symbol
              (acc.1 * (bt.config.defaultPositionSizePct / 100))
              (acc.1 * (bt.config.defaultPositionSizePct / 100) * (1/100))
              (acc.2.1.map (fun p =>
                (p.1, p.2.entryPrice * (p.2.quantity.val : ℚ))))
              10 acc.1 with
          | rejected v =>
            rw [if_pos (by simp)]
            exact hacc
          | approved =>
            rw [if_neg (by simp)]
            by_cases hps : calculatePositionSize bt.config acc.1 signal < 1
            · rw [if_pos hps]
              exact hacc
            · rw [if_neg hps]
              exact nodupKeys_alInsert _ _ _ hacc
  · -- the state entering the signal loop: exits fold, then filter
    apply nodupKeys_filter
    have hkeys := alKeys_foldl_append
      (fun (acc : List (Symbol × BacktestTrade) × ℚ) p =>
        match alLookup p.1 (symbols.foldl
            (fun snap sym =>
              match alLookup sym historicalData with
              | some data =>
                match data.get? i with
                | some marketData => alInsert sym marketData snap
                | none => snap
              | none => snap)
            []) with
        | some marketData =>
          match shouldExit p.2 marketData
            (bt.aggregator.aggregate []) with
          | some exitReason =>
            let exitPrice := applySlippage bt.config marketData.mid true
            let exitSlippage := |exitPrice - marketData.mid|
            let closed := p.2.close exitPrice exitReason
              bt.config.commissionPerTrade exitSlippage
            (acc.1 ++ [(p.1, closed)], acc.2 + closed.netPnl.getD 0)
          | none => (acc.1 ++ [p], acc.2)
        | none => (acc.1 ++ [p], acc.2))
      (by
        intro acc p
        dsimp only
        cases alLookup p.1 (symbols.foldl
            (fun snap sym =>
              match alLookup sym historicalData with
              | some data =>
                match data.get? i with
                | some marketData => alInsert sym marketData snap
                | none => snap
              | none => snap)
            []) with
        | none => exact ⟨p, rfl, rfl⟩
        | some marketData =>
          dsimp only
          cases shouldExit p.2 marketData (bt.aggregator.aggregate [])
            with
          | none => exact ⟨p, rfl, rfl⟩
          | some exitReason => exact ⟨_, rfl, rfl⟩)
      st.openTrades ([], st.capital)
    unfold NodupKeys
    rw [hkeys]
    simpa [NodupKeys, alKeys] using h

/-- C2 (confirmed): starting from an open-position map with pairwise
distinct symbols, any sequence of `execute_signal`, `update_positions`,
`check_exits` and position-close operations keeps the symbols pairwise
distinct (at most one entry per symbol); executing a signal for a symbol
that already has a position fails with an error and leaves the manager
unchanged; and each time step of a backtest `run` likewise preserves
distinctness of the open-trade symbols. -/
theorem positions_at_most_one_per_symbol (om : OrderManager)
    (h : NodupKeys om.positions) :
    (∀ ops : List OmOp, NodupKeys ((ops.foldl OmOp.apply om).positions))
    ∧ (∀ (signal : Signal) (currentPrice : ℚ),
        alContains signal.symbol om.positions = true →
        om.executeSignal signal currentPrice
          = (.error (.alreadyHavePosition signal.symbol), om))
    ∧ (∀ (A : Type) (bt : Backtester A)
        (updateA : A → MarketSnapshot → A)
        (historicalData : List (Symbol × List MarketData))
        (symbols : List Symbol) (st : RunState A) (i : Nat),
        NodupKeys st.openTrades →
        NodupKeys
          ((bt.runStep updateA historicalData symbols st i).openTrades)) :=
  ⟨fun ops => foldl_preserves (fun o => NodupKeys o.positions)
      (fun o op => op.apply o) (fun o op ho => nodupKeys_omOp o op ho)
      ops om h,
    fun signal currentPrice hc => by
      simp [OrderManager.executeSignal, hc],
    fun A bt updateA historicalData symbols st i hst =>
      nodupKeys_runStep bt updateA historicalData symbols st i hst⟩

theorem positions_at_most_one_per_symbol_witness :
    NodupKeys (([OmOp.execute c6signal 100]).foldl OmOp.apply
      (OrderManager.new 10000 OrderManagerConfig.default)).positions :=
  (positions_at_most_one_per_symbol
    (OrderManager.new 10000 OrderManagerConfig.default)
    (by simp [OrderManager.new, NodupKeys, alKeys])).1
    [OmOp.execute c6signal 100]

/-! ### The backtest loop collects no signals (C3) -/

theorem aggregate_nil (agg : SignalAggregator) : agg.aggregate [] = [] :=
  rfl

theorem runStep_preserves_inv {A : Type} (bt : Backtester A)
    (updateA : A → MarketSnapshot → A)
    (historicalData : List (Symbol × List MarketData))
    (symbols : List Symbol) (i : Nat) (init : ℚ) (st : RunState A)
    (h : RunInv init st) :
    RunInv init (bt.runStep updateA historicalData symbols st i) := by
  obtain ⟨hcap, hopen, hclosed, htot, hrej, heq⟩ := h
  unfold Backtester.runStep RunInv
  simp only [hopen, aggregate_nil, List.foldl_nil, List.filter_nil,
    List.map_nil, List.filterMap_nil, List.append_nil, List.sum_nil,
    List.length_nil]
  refine ⟨hcap, by simp, hclosed, by simpa using htot, hrej, ?_⟩
  intro x hx
  rw [List.mem_append] at hx
  rcases hx with hx | hx
  · exact heq x hx
  · simp only [List.mem_singleton] at hx
    rw [hx, hcap]
    ring

/-- C3 (confirmed): `Backtester::run` creates its raw signal list empty
and never fills it (`let all_signals = Vec::new();` with no push), so for
every set of alpha models and every historical data set a successful run
reports zero total signals and zero rejections, closes no trades, ends
with the initial capital, and every equity-curve entry equals the initial
capital. -/
theorem run_collects_no_signals {A : Type} (bt : Backtester A)
    (updateA : A → MarketSnapshot → A) (resetA : A → A)
    (historicalData : List (Symbol × List MarketData))
    (symbols : List Symbol) (r : BacktestResult)
    (h : bt.run updateA resetA historicalData symbols = .ok r) :
    r.totalSignals = 0 ∧ r.trades = [] ∧ r.rejectedSignals = 0
      ∧ r.finalCapital = bt.config.initialCapital
      ∧ ∀ x ∈ r.equityCurve, x = bt.config.initialCapital := by
  unfold Backtester.run at h
  cases hmin : (historicalData.map (fun p => p.2.length)).min? with
  | none => rw [hmin] at h; simp at h
  | some minDataPoints =>
    rw [hmin] at h
    simp only at h
    have hinv : RunInv bt.config.initialCapital
        ((List.range minDataPoints).foldl
          (bt.runStep updateA historicalData symbols)
          ⟨bt.alphas.map resetA, bt.config.initialCapital,
            [bt.config.initialCapital], [], [], 0, 0⟩) := by
      apply foldl_preserves (RunInv bt.config.initialCapital)
      · intro st i hst
        exact runStep_preserves_inv bt updateA historicalData symbols i
          bt.config.initialCapital st hst
      · refine ⟨rfl, rfl, rfl, rfl, rfl, ?_⟩
        intro x hx
        simpa using hx
    obtain ⟨hcap, hopen, hclosed, htot, hrej, heq⟩ := hinv
    rw [hopen] at h
    simp only [List.foldl_nil] at h
    injection h with h
    rw [← h]
    exact ⟨htot, hclosed, hrej, hcap, heq⟩

theorem run_collects_no_signals_witness :
    (⟨[], [10000, 10000 + 0], 10000, 0, 0⟩ : BacktestResult).totalSignals
        = 0
      ∧ (⟨[], [10000, 10000 + 0], 10000, 0, 0⟩
          : BacktestResult).trades = []
      ∧ (⟨[], [10000, 10000 + 0], 10000, 0, 0⟩
          : BacktestResult).rejectedSignals = 0
      ∧ (⟨[], [10000, 10000 + 0], 10000, 0, 0⟩
          : BacktestResult).finalCapital
        = (Backtester.new BacktestConfig.default
            : Backtester Unit).config.initialCapital
      ∧ ∀ x ∈ (⟨[], [10000, 10000 + 0], 10000, 0, 0⟩
          : BacktestResult).equityCurve,
          x = (Backtester.new BacktestConfig.default
            : Backtester Unit).config.initialCapital :=
  run_collects_no_signals
    (Backtester.new BacktestConfig.default : Backtester Unit)
    (fun a _ => a) id [("AAPL", [⟨100, 101, 100⟩])] ["AAPL"]
    ⟨[], [10000, 10000 + 0], 10000, 0, 0⟩ rfl

end Quant
